import Mathlib

/-!
The NATS-streaming consume and produce bridges of proximo-server.

A verification development for `proximo-server/nats-streaming.go`.

* `HandleConsume` runs three tasks (the main task, the acknowledgment goroutine and the
  delivery callback invoked by the broker's subscription).  It is embedded as a labelled
  transition system: `HandleConsume.step` executes one atomic action of one task, the label
  (`HandleConsume.Event`) names the task's action together with whatever the environment supplies
  at that point (the result of a broker call, the Confirmation sent by the client, ...).
  A `select` with several ready cases is a choice between several enabled events.
* `HandleProduce` is a single sequential task and is embedded the same way (`HandleProduce.step`).
* `strconv.ParseUint(s, 10, 64)` and `strconv.FormatUint(n, 10)` are embedded as functions on
  strings.
-/

namespace Proximo

/-! ## Go values -/

/-- Go `error` values that are not aggregates: the two context errors, an error value handed
back by a call into the nats / stan client libraries, and a value built by `fmt.Errorf`. -/
inductive BaseErr where
  | contextCanceled
  | deadlineExceeded
  | backend (text : String)
  | errorf (text : String)
  deriving DecidableEq, Repr

/-- The text of `err.Error()`. -/
def BaseErr.Error : BaseErr → String
  | .contextCanceled => "context canceled"
  | .deadlineExceeded => "context deadline exceeded"
  | .backend t => t
  | .errorf t => t

/-- A Go `error` returned by a handler: a plain error or a `*multierror.Error` holding the
list of errors appended to it. -/
inductive GoError where
  | single (e : BaseErr)
  | multi (errs : List BaseErr)
  deriving DecidableEq, Repr

/-- The value `nil` of type `error` is `none`. -/
abbrev Result := Option GoError

/-- The call `multierror.Append(closeErr, err)` for a plain `err`: appending to `nil` creates the
aggregate, appending to an aggregate extends its list, appending to a plain error starts an
aggregate with both. -/
def multierrorAppend (closeErr : Result) (err : BaseErr) : GoError :=
  match closeErr with
  | none => .multi [err]
  | some (.multi errs) => .multi (errs ++ [err])
  | some (.single e) => .multi [e, err]

/-- An error value `e` is contained in a returned error: it is that error or one of the
errors of the aggregate. -/
def Result.contains (r : Result) (e : BaseErr) : Bool :=
  match r with
  | none => false
  | some (.single b) => decide (b = e)
  | some (.multi errs) => decide (e ∈ errs)

/-! ## strconv -/

/-- The largest `uint64`. -/
def maxUint64 : Nat := 2 ^ 64 - 1

/-- One iteration of the digit loop of `strconv.ParseUint` for base 10 and bit size 64, on the
running value `n` (a `uint64`) and the byte `c`: a byte that is not a decimal digit is a syntax
error, `n >= cutoff` (with `cutoff = maxUint64/10 + 1`) is a range error, and so is a wrap-around
of `n*10 + d`.  `none` stands for the non-nil `err`. -/
def parseUintStep (n : Nat) (c : Char) : Option Nat :=
  if '0' ≤ c ∧ c ≤ '9' then
    let d := c.toNat - '0'.toNat
    if n ≥ maxUint64 / 10 + 1 then none
    else
      let n10 := (n * 10) % 2 ^ 64
      let n1 := (n10 + d) % 2 ^ 64
      if n1 < n10 ∨ n1 > maxUint64 then none else some n1
  else none

/-- The digit loop of `strconv.ParseUint`. -/
def parseUintLoop : Nat → List Char → Option Nat
  | n, [] => some n
  | n, c :: cs =>
    match parseUintStep n c with
    | none => none
    | some n1 => parseUintLoop n1 cs

/-- The call `strconv.ParseUint(s, 10, 64)`: `some n` when it returns `n, nil`, `none` when it returns a
non-nil error (empty string, a byte that is not a digit, value out of range). -/
def ParseUint (s : String) : Option Nat :=
  if s.data = [] then none else parseUintLoop 0 s.data

/-- The decimal digit `d < 10` as a byte. -/
def digitChar (d : Nat) : Char := Char.ofNat ('0'.toNat + d % 10)

/-- The decimal digits of `n`, most significant first; `fuel` bounds the number of digits. -/
def decDigits : Nat → Nat → List Char
  | 0, _ => []
  | fuel + 1, n => if n < 10 then [digitChar n] else decDigits fuel (n / 10) ++ [digitChar n]

/-- The call `strconv.FormatUint(n, 10)` for a `uint64` value `n`: its decimal representation (at most
20 digits). -/
def FormatUint (n : Nat) : String := ⟨decDigits 20 (n % 2 ^ 64)⟩

/-! ## HandleConsume -/

namespace HandleConsume

/-- The fields of `stan.Msg` the handler reads: the broker sequence (a `uint64`) and the
payload bytes. -/
structure StanMsg where
  Sequence : Nat
  Data : List Nat
  deriving DecidableEq, Repr

/-- The message `proto.Message` sent to the client. -/
structure Message where
  Data : List Nat
  Id : String
  deriving DecidableEq, Repr

/-- The confirmation `proto.Confirmation` sent by the client. -/
structure Confirmation where
  MsgID : String
  deriving DecidableEq, Repr

/-- The handler `natsStreamingConsumeHandler`; `nc` names the shared NATS connection. -/
structure Handler where
  clusterID : String
  maxInflight : Int
  nc : String
  deriving DecidableEq, Repr

/-- The constructor `newNatsStreamingConsumeHandler(url, clusterID, maxInflight)`, given the
outcome `connectRes` of `nats.Connect(url, ...)`: the connection error is passed on, otherwise
the three fields are stored as given. -/
def newNatsStreamingConsumeHandler (connectRes : Except BaseErr String) (clusterID : String)
    (maxInflight : Int) : Except BaseErr Handler :=
  match connectRes with
  | .error err => .error err
  | .ok nc => .ok { nc := nc, clusterID := clusterID, maxInflight := maxInflight }

/-- The message built at line 86: `&proto.Message{Data: msg.Data, Id: FormatUint(msg.Sequence, 10)}`. -/
def toMessage (msg : StanMsg) : Message :=
  { Data := msg.Data, Id := FormatUint msg.Sequence }

/-- The two broker resources of a session, closed by `closeAll` in this order. -/
inductive Resource where
  | subscription
  | conn
  deriving DecidableEq, Repr

/-- The four `return` statements of `HandleConsume` the main task can reach, by line: after a
failed `stan.Connect` (42), after a failed `QueueSubscribe` (102), in the `ctx.Done()` branch
(117) and in the `ackErrors` branch (121). -/
inductive ReturnSite where
  | line42
  | line102
  | line117
  | line121
  deriving DecidableEq, Repr

/-- Where the main task of `HandleConsume` stands: before `stan.Connect` (line 40), before
`conn.QueueSubscribe` (line 91, the acknowledgment goroutine is running), at the final `select`
(line 114), at `wg.Wait()` of the `ctx.Done()` branch (line 116), at `wg.Wait()` of the `ackErrors`
branch holding the received error (line 119), after a `return` (with the `return` statement
and the returned error), or stopped by the run-time panic of `make` with a negative
size (line 46). -/
inductive MainPc where
  | connecting
  | subscribing
  | selecting
  | waitCancel
  | waitFailure (err : BaseErr)
  | returned (site : ReturnSite) (r : Result)
  | panicked
  deriving DecidableEq, Repr

/-- Where the acknowledgment goroutine (lines 53-80) stands: not started, at the outer `select`
(line 56), at the inner `select` holding the popped entry (line 58), blocked in a send on the
unbuffered channel `ackErrors` (lines 62, 66, 70), or returned (`wg.Done()` has run). -/
inductive AckPc where
  | notStarted
  | outer
  | inner (msg : StanMsg)
  | sending (err : BaseErr)
  | done
  deriving DecidableEq, Repr

/-- Where the delivery callback `f` (lines 82-89) stands: not running, at its `select` (line 83),
or at the send `ackQueue <- msg` (line 87). -/
inductive CallbackPc where
  | idle
  | forwarding (msg : StanMsg)
  | enqueuing (msg : StanMsg)
  deriving DecidableEq, Repr

/-- The state of one `HandleConsume` call.  `cancelled` tells whether `ctx.Done()` is closed and
`ackQueue` is the content of the buffered channel.  The remaining fields record what the
environment has observed so far: resources opened and closed (with the result of each `Close`),
messages handed to `f` by the broker, messages sent on `forClient`, the `MsgID` of every
Confirmation taken from `confirmRequest`, the `MsgID` of those handled without error, the
messages on which `msg.Ack()` was called, and those for which it returned `nil`. -/
structure State where
  cancelled : Bool
  main : MainPc
  ack : AckPc
  cb : CallbackPc
  ackQueue : List StanMsg
  opened : List Resource
  closed : List (Resource × Option BaseErr)
  received : List StanMsg
  delivered : List Message
  confirms : List String
  accepted : List String
  ackCalls : List StanMsg
  acked : List StanMsg
  deriving DecidableEq, Repr

/-- The state at the call of `HandleConsume`. -/
def init : State :=
  { cancelled := false, main := .connecting, ack := .notStarted, cb := .idle, ackQueue := [],
    opened := [], closed := [], received := [], delivered := [], confirms := [], accepted := [],
    ackCalls := [], acked := [] }

/-- One atomic action of one of the tasks, with what the environment supplies to it. -/
inductive Event where
  /-- The context is cancelled. -/
  | cancel
  /-- Lines 40-80: `stan.Connect` returns `res`; on success the channels are made and the
  acknowledgment goroutine is started. -/
  | stanConnect (res : Option BaseErr)
  /-- Lines 91-112: `conn.QueueSubscribe` returns `res`. -/
  | queueSubscribe (res : Option BaseErr)
  /-- The subscription invokes `f(msg)`. -/
  | deliver (msg : StanMsg)
  /-- Line 86: the send on `forClient` is taken by the client. -/
  | forward
  /-- Line 84: `f` takes the `ctx.Done()` case. -/
  | callbackCtxDone
  /-- Line 87: the send on `ackQueue` completes. -/
  | enqueue
  /-- Line 57: the goroutine receives from `ackQueue`. -/
  | pop
  /-- Line 76: the goroutine takes the outer `ctx.Done()` case. -/
  | outerCtxDone
  /-- Lines 59-72: the goroutine receives `cr` from `confirmRequest`; `ackRes` is what `msg.Ack()`
  returns if it is called. -/
  | confirm (cr : Confirmation) (ackRes : Option BaseErr)
  /-- Line 73: the goroutine takes the inner `ctx.Done()` case. -/
  | innerCtxDone
  /-- Line 115: the main task takes the `ctx.Done()` case. -/
  | mainCtxDone
  /-- Line 118: the main task receives from `ackErrors` (the goroutine's send completes and the
  goroutine returns). -/
  | mainRecvErr
  /-- Lines 116-117 and 119-121: `wg.Wait()` returns, `closeAll()` closes the subscription (result
  `subRes`) and the connection (result `connRes`), and the main task returns. -/
  | finish (subRes connRes : Option BaseErr)
  deriving DecidableEq, Repr

/-- The function `closeAll` (lines 104-112), given the results of the two `Close` calls: every
failure is appended to `closeErr`, which starts as `nil`. -/
def closeAll (subRes connRes : Option BaseErr) : Result :=
  [subRes, connRes].foldl
    (fun closeErr res =>
      match res with
      | some err => some (multierrorAppend closeErr err)
      | none => closeErr)
    none

/-- The subscription exists and has not been closed: the main task is at the final `select` or
at one of the two `wg.Wait()`. -/
def subscribed (s : State) : Bool :=
  match s.main with
  | .selecting => true
  | .waitCancel => true
  | .waitFailure _ => true
  | _ => false

/-- The error of line 62: `fmt.Errorf("failed to parse message sequence '%v'", cr.MsgID)`. -/
def parseError (msgID : String) : BaseErr :=
  .errorf ("failed to parse message sequence '" ++ msgID ++ "'")

/-- The error of line 66:
`fmt.Errorf("unexpected message sequence. was %v but wanted %v.", seq, msg.Sequence)`. -/
def sequenceError (seq wanted : Nat) : BaseErr :=
  .errorf ("unexpected message sequence. was " ++ FormatUint seq ++ " but wanted "
    ++ FormatUint wanted ++ ".")

/-- The error of line 70: `fmt.Errorf("failed to ack message with NATS: %v.", err.Error())`. -/
def ackError (err : BaseErr) : BaseErr :=
  .errorf ("failed to ack message with NATS: " ++ err.Error ++ ".")

/-- Lines 60-72 on the popped entry `msg` and the Confirmation `cr`: parse, compare, acknowledge. -/
def handleConfirmation (s : State) (msg : StanMsg) (cr : Confirmation)
    (ackRes : Option BaseErr) : State :=
  let s := { s with confirms := s.confirms ++ [cr.MsgID] }
  match ParseUint cr.MsgID with
  | none => { s with ack := .sending (parseError cr.MsgID) }
  | some seq =>
    if seq ≠ msg.Sequence then
      { s with ack := .sending (sequenceError seq msg.Sequence) }
    else
      match ackRes with
      | some err => { s with ackCalls := s.ackCalls ++ [msg], ack := .sending (ackError err) }
      | none =>
        { s with ackCalls := s.ackCalls ++ [msg], acked := s.acked ++ [msg],
                 accepted := s.accepted ++ [cr.MsgID], ack := .outer }

/-- One step of `HandleConsume` for handler `h`; `none` when the event is not enabled in `s`.

The environment is the stan client library and the broker.  The callback `f` is invoked by the
subscription's delivery goroutine, one call at a time, with messages whose sequence is a
`uint64`; which messages it is handed, and when, is left to the broker: new ones, and again those
not acknowledged within `AckWait` (line 98).  The broker refuses a subscription whose
`MaxInflight` (line 99) is below 1, so `QueueSubscribe` succeeds only for a cap of at least 1. -/
def step (h : Handler) (s : State) : Event → Option State
  | .cancel => some { s with cancelled := true }
  | .stanConnect res =>
    match s.main with
    | .connecting =>
      match res with
      | some err => some { s with main := .returned .line42 (some (.single err)) }
      | none =>
        if h.maxInflight < 0 then
          some { s with main := .panicked, opened := s.opened ++ [.conn] }
        else
          some { s with main := .subscribing, ack := .outer, opened := s.opened ++ [.conn] }
    | _ => none
  | .queueSubscribe res =>
    match s.main with
    | .subscribing =>
      match res with
      | some err => some { s with main := .returned .line102 (some (.single err)) }
      | none =>
        if 1 ≤ h.maxInflight then
          some { s with main := .selecting, opened := s.opened ++ [.subscription] }
        else none
    | _ => none
  | .deliver msg =>
    if subscribed s = true ∧ s.cb = .idle ∧ msg.Sequence < 2 ^ 64 then
      some { s with cb := .forwarding msg, received := s.received ++ [msg] }
    else none
  | .forward =>
    match s.cb with
    | .forwarding msg =>
      some { s with cb := .enqueuing msg, delivered := s.delivered ++ [toMessage msg] }
    | _ => none
  | .callbackCtxDone =>
    match s.cb with
    | .forwarding _ => if s.cancelled = true then some { s with cb := .idle } else none
    | _ => none
  | .enqueue =>
    match s.cb with
    | .enqueuing msg =>
      if s.ackQueue.length < h.maxInflight.toNat then
        some { s with cb := .idle, ackQueue := s.ackQueue ++ [msg] }
      else if h.maxInflight.toNat = 0 ∧ s.ack = .outer then
        some { s with cb := .idle, ack := .inner msg }
      else none
    | _ => none
  | .pop =>
    match s.ack, s.ackQueue with
    | .outer, msg :: rest => some { s with ack := .inner msg, ackQueue := rest }
    | _, _ => none
  | .outerCtxDone =>
    match s.ack with
    | .outer => if s.cancelled = true then some { s with ack := .done } else none
    | _ => none
  | .confirm cr ackRes =>
    match s.ack with
    | .inner msg => some (handleConfirmation s msg cr ackRes)
    | _ => none
  | .innerCtxDone =>
    match s.ack with
    | .inner _ => if s.cancelled = true then some { s with ack := .done } else none
    | _ => none
  | .mainCtxDone =>
    match s.main with
    | .selecting => if s.cancelled = true then some { s with main := .waitCancel } else none
    | _ => none
  | .mainRecvErr =>
    match s.main, s.ack with
    | .selecting, .sending err => some { s with main := .waitFailure err, ack := .done }
    | _, _ => none
  | .finish subRes connRes =>
    if s.ack = .done then
      match s.main with
      | .waitCancel =>
        some { s with main := .returned .line117 (closeAll subRes connRes),
                      closed := s.closed ++ [(.subscription, subRes), (.conn, connRes)] }
      | .waitFailure err =>
        some { s with main := .returned .line121 (some (.single err)),
                      closed := s.closed ++ [(.subscription, subRes), (.conn, connRes)] }
      | _ => none
    else none

/-- Run a schedule: the events are executed in order, `none` if one of them is not enabled. -/
def run (h : Handler) : State → List Event → Option State
  | s, [] => some s
  | s, e :: es =>
    match step h s e with
    | none => none
    | some s1 => run h s1 es

/-- The states `HandleConsume` can be in, over all schedules and environments. -/
def Reachable (h : Handler) (s : State) : Prop := ∃ evs, run h init evs = some s

/-- The value returned by `HandleConsume`, once it has returned. -/
def returnValue (s : State) : Option Result :=
  match s.main with
  | .returned _ r => some r
  | _ => none

/-- The number of messages delivered to the client and not yet acknowledged to the broker. -/
def unacknowledged (s : State) : Nat := s.delivered.length - s.acked.length

/-- The entry the acknowledgment goroutine has popped and not yet handled. -/
def AckPc.held : AckPc → List StanMsg
  | .inner msg => [msg]
  | _ => []

/-- The acknowledgment goroutine has neither failed nor returned. -/
def AckPc.live : AckPc → Bool
  | .sending _ => false
  | .done => false
  | _ => true

/-- The message the callback has forwarded and not yet put into `ackQueue`. -/
def CallbackPc.forwarded : CallbackPc → List StanMsg
  | .enqueuing msg => [msg]
  | _ => []

/-- The message the callback is working on. -/
def CallbackPc.inHand : CallbackPc → List StanMsg
  | .forwarding msg => [msg]
  | .enqueuing msg => [msg]
  | .idle => []

/-- Whether the callback is at its `select`, holding a message it has not forwarded (1 or 0). -/
def CallbackPc.forwardingCount : CallbackPc → Nat
  | .forwarding _ => 1
  | _ => 0

/-- How the tasks' positions depend on each other. -/
def Control (s : State) : Prop :=
  match s.main with
  | .connecting => s.ack = .notStarted ∧ s.cb = .idle ∧ s.ackQueue = [] ∧ s.closed = []
  | .subscribing =>
    (s.ack = .outer ∨ (s.ack = .done ∧ s.cancelled = true)) ∧ s.cb = .idle ∧ s.ackQueue = []
      ∧ s.closed = []
  | .selecting => s.ack ≠ .notStarted ∧ (s.ack = .done → s.cancelled = true) ∧ s.closed = []
  | .waitCancel => s.ack ≠ .notStarted ∧ s.cancelled = true ∧ s.closed = []
  | .waitFailure _ => s.ack = .done ∧ s.closed = []
  | .returned .line42 _ => s.ack = .notStarted ∧ s.cb = .idle ∧ s.ackQueue = [] ∧ s.closed = []
  | .returned .line102 _ =>
    (s.ack = .outer ∨ (s.ack = .done ∧ s.cancelled = true)) ∧ s.cb = .idle ∧ s.ackQueue = []
      ∧ s.closed = []
  | .returned .line117 r =>
    s.ack = .done ∧ s.cancelled = true
      ∧ ∃ a b, s.closed = [(.subscription, a), (.conn, b)] ∧ r = closeAll a b
  | .returned .line121 r =>
    s.ack = .done ∧ ∃ e a b, s.closed = [(.subscription, a), (.conn, b)] ∧ r = some (.single e)
  | .panicked => s.ack = .notStarted ∧ s.cb = .idle ∧ s.ackQueue = [] ∧ s.closed = []

/-- How the in-flight window and the observations depend on each other. -/
structure Window (h : Handler) (s : State) : Prop where
  fifo : if s.ack.live = true then
      s.delivered = (s.ackCalls ++ s.ack.held ++ s.ackQueue ++ s.cb.forwarded).map toMessage
    else (s.ackCalls.map toMessage) <+: s.delivered
  bound : ∀ m ∈ s.ackCalls ++ s.ack.held ++ s.ackQueue ++ s.cb.inHand, m.Sequence < 2 ^ 64
  calls : s.ackCalls = s.acked ∨ (s.ack.live = false ∧ ∃ m, s.ackCalls = s.acked ++ [m])
  parsed : s.accepted.map ParseUint = s.acked.map (fun m => some m.Sequence)
  confirmed : s.confirms = s.accepted
    ∨ (s.ack.live = false ∧ ∃ c m, s.confirms = s.accepted ++ [c] ∧ m.Sequence < 2 ^ 64
        ∧ ((s.acked ++ [m]).map toMessage) <+: s.delivered
        ∧ (s.ackCalls = s.acked ++ [m] ∨ ParseUint c ≠ some m.Sequence))
  handed : s.delivered.length + s.cb.forwardingCount ≤ s.received.length
  capacity : s.ackQueue.length ≤ h.maxInflight.toNat
  fromBroker : ∀ m ∈ s.received, m.Sequence < 2 ^ 64
  inHand : ∀ m ∈ s.cb.inHand, m ∈ s.received
  sent : ∀ m ∈ s.delivered, ∃ msg ∈ s.received, m = toMessage msg

/-- What the bridge itself keeps in flight: the messages delivered and not acknowledged are at
most the one the goroutine holds (or has dropped when it stopped), the content of `ackQueue`
and the one the callback has forwarded and not yet put into `ackQueue`. -/
def Slack (s : State) : Prop :=
  s.delivered.length ≤ s.acked.length + 1 + s.ackQueue.length + s.cb.forwarded.length

/-- The acknowledgment path has failed with `e` and the context is not cancelled: the goroutine
is blocked sending `e` with the main task at its `select`, or the main task has received `e`, or
it has returned `e` at line 121. -/
def Failing (e : BaseErr) (s : State) : Prop :=
  s.cancelled = false ∧
    ((s.main = .selecting ∧ s.ack = .sending e) ∨ (s.main = .waitFailure e ∧ s.ack = .done)
      ∨ (s.main = .returned .line121 (some (.single e)) ∧ s.ack = .done))

/-- One round of the serial schedule: `msg` is delivered, forwarded to the client, put into
`ackQueue`, popped, and confirmed by the client with the identifier it was given, the broker
accepting the acknowledgment. -/
def echoRound (msg : StanMsg) : List Event :=
  [.deliver msg, .forward, .enqueue, .pop, .confirm ⟨FormatUint msg.Sequence⟩ none]

/-- The serial schedule of a session that delivers `msgs`, the client confirming each message
with the identifier it was given before the next one is delivered. -/
def echoSchedule (msgs : List StanMsg) : List Event :=
  [.stanConnect none, .queueSubscribe none] ++ msgs.flatMap echoRound

/-- A handler with in-flight cap 1. -/
def handlerOne : Handler := { clusterID := "test-cluster", maxInflight := 1, nc := "nc" }

/-- A handler with in-flight cap 0. -/
def handlerZero : Handler := { clusterID := "test-cluster", maxInflight := 0, nc := "nc" }

/-- A handler with in-flight cap -1. -/
def handlerMinusOne : Handler := { clusterID := "test-cluster", maxInflight := -1, nc := "nc" }

/-- A broker message with sequence 5. -/
def msgFive : StanMsg := { Sequence := 5, Data := [104, 105] }

/-- A broker message with sequence 6. -/
def msgSix : StanMsg := { Sequence := 6, Data := [33] }

/-- A schedule that delivers message 5 and brings the acknowledgment goroutine to its inner
`select`, holding it. -/
def deliverFive : List Event :=
  [.stanConnect none, .queueSubscribe none, .deliver msgFive, .forward, .enqueue, .pop]

/-- The state a schedule leads to from the call of `HandleConsume` (the initial state if the
schedule cannot be run). -/
def stateAfter (h : Handler) (evs : List Event) : State := (run h init evs).getD init

/-- Message 5 is delivered and the client confirms it as "05". -/
def leadingZeroSchedule : List Event := deliverFive ++ [.confirm ⟨"05"⟩ none]

/-- Message 5 is delivered and the client confirms "6"; the main task receives the failure and
closes, the subscription failing to close. -/
def mismatchSchedule : List Event :=
  deliverFive ++ [.confirm ⟨"6"⟩ none, .mainRecvErr, .finish (some (.backend "close failed")) none]

/-- The context is cancelled while no message is in flight, both tasks take their `ctx.Done()`
case and both closes succeed. -/
def cancelSchedule : List Event :=
  [.stanConnect none, .queueSubscribe none, .cancel, .outerCtxDone, .mainCtxDone,
    .finish none none]

/-- Message 5 is delivered, the context is cancelled, the goroutine still takes the
Confirmation "6" at its inner `select`, and the main task takes its `ctx.Done()` case. -/
def deadlockSchedule : List Event :=
  deliverFive ++ [.cancel, .confirm ⟨"6"⟩ none, .mainCtxDone]

/-- Message 5 is delivered and held by the goroutine, the client does not confirm it, and the
broker hands it to `f` again, twice (redelivery after `AckWait`); both copies are forwarded. -/
def redeliverySchedule : List Event :=
  deliverFive ++ [.deliver msgFive, .forward, .enqueue, .deliver msgFive, .forward]

/-- The connection is opened and the broker refuses the subscription. -/
def refusedSchedule : List Event :=
  [.stanConnect none, .queueSubscribe (some (.backend "stan: invalid max inflight"))]

/-- What a session with a cap below 1 can reach: nothing is delivered, the subscription is never
opened, and the main task is before `stan.Connect`, or has opened the connection and is before
`QueueSubscribe` (cap 0) or stopped by the panic of `make` (negative cap), or has returned the
error of `stan.Connect` or of `QueueSubscribe`. -/
def Refused (h : Handler) (s : State) : Prop :=
  s.received = [] ∧ s.delivered = [] ∧ s.cb = .idle ∧ s.closed = [] ∧
    match s.main with
    | .connecting => s.opened = []
    | .subscribing => s.opened = [.conn] ∧ h.maxInflight = 0
    | .panicked => s.opened = [.conn] ∧ h.maxInflight < 0
    | .returned .line42 r => s.opened = [] ∧ ∃ err, r = some (.single err)
    | .returned .line102 r => s.opened = [.conn] ∧ h.maxInflight = 0 ∧ ∃ err, r = some (.single err)
    | _ => False

/-- The errors the acknowledgment goroutine sends on `ackErrors`. -/
def AckPathError (e : BaseErr) : Prop :=
  (∃ msgID, e = parseError msgID) ∨ (∃ seq wanted, e = sequenceError seq wanted)
    ∨ (∃ err, e = ackError err)

/-- The error travelling from the goroutine to the return at line 121 is one of the goroutine's. -/
def Cause (s : State) : Prop :=
  (∀ e, s.ack = .sending e → AckPathError e)
    ∧ (∀ e, s.main = .waitFailure e → AckPathError e)
    ∧ (∀ r, s.main = .returned .line121 r → ∃ e, AckPathError e ∧ r = some (.single e))

end HandleConsume

/-! ## HandleProduce -/

namespace HandleProduce

/-- The message `proto.Message` sent by the client. -/
structure Message where
  Data : List Nat
  Id : String
  deriving DecidableEq, Repr

/-- The confirmation `proto.Confirmation` sent to the client. -/
structure Confirmation where
  MsgID : String
  deriving DecidableEq, Repr

/-- The getter `msg.GetData()`: the payload, and `nil` for a nil message. -/
def GetData : Option Message → List Nat
  | some m => m.Data
  | none => []

/-- The getter `msg.GetId()`: the identifier, and the empty string for a nil message. -/
def GetId : Option Message → String
  | some m => m.Id
  | none => ""

/-- The session parameters `producerConfig`. -/
structure ProducerConfig where
  topic : String
  deriving DecidableEq, Repr

/-- The four `return` statements of `HandleProduce`, by line: after a failed `stan.Connect`
(149), in the `ctx.Done()` case of the loop (155), after a failed `Publish` (160), and in the
`ctx.Done()` case while a Confirmation waits to be sent (165). -/
inductive ReturnSite where
  | line149
  | line155
  | line160
  | line165
  deriving DecidableEq, Repr

/-- Where `HandleProduce` stands: before `stan.Connect` (line 147), at the `select` of the loop
(line 153), at the `select` that sends the Confirmation for the message just published
(line 162), or after a `return` (with the `return` statement and the returned error). -/
inductive Pc where
  | connecting
  | receiving
  | confirming (msg : Option Message)
  | returned (site : ReturnSite) (r : Result)
  deriving DecidableEq, Repr

/-- The state of one `HandleProduce` call.  Besides the position and whether `ctx.Done()` is
closed it records what the environment has observed: the messages taken from `messages`, the
`(topic, payload)` of every `conn.Publish` call and of those that returned `nil`, the
Confirmations sent on `forClient`, and the result of every `conn.Close()`. -/
structure State where
  cancelled : Bool
  pc : Pc
  consumed : List (Option Message)
  publishCalls : List (String × List Nat)
  published : List (String × List Nat)
  confirmations : List Confirmation
  closed : List (Option BaseErr)
  deriving DecidableEq, Repr

/-- The state at the call of `HandleProduce`. -/
def init : State :=
  { cancelled := false, pc := .connecting, consumed := [], publishCalls := [], published := [],
    confirmations := [], closed := [] }

/-- One atomic action of `HandleProduce`, with what the environment supplies to it. -/
inductive Event where
  /-- The context is cancelled. -/
  | cancel
  /-- Line 147: `stan.Connect` returns `res`. -/
  | stanConnect (res : Option BaseErr)
  /-- Lines 154-155: the loop takes the `ctx.Done()` case; `conn.Close()` returns `closeRes`. -/
  | receiveCtxDone (closeRes : Option BaseErr)
  /-- Lines 156-161: the loop receives `msg`; `conn.Publish` returns `pubRes`, and `conn.Close()`
  returns `closeRes` if it is called. -/
  | receive (msg : Option Message) (pubRes closeRes : Option BaseErr)
  /-- Line 163: the send on `forClient` is taken by the client. -/
  | confirm
  /-- Lines 164-165: the `ctx.Done()` case is taken while the Confirmation waits to be sent;
  `conn.Close()` returns `closeRes`. -/
  | confirmCtxDone (closeRes : Option BaseErr)
  deriving DecidableEq, Repr

/-- A `conn.Close()` result as the returned `error`. -/
def closeResult (closeRes : Option BaseErr) : Result := closeRes.map GoError.single

/-- One step of `HandleProduce` on configuration `conf`; `none` when the event is not enabled. -/
def step (conf : ProducerConfig) (s : State) : Event → Option State
  | .cancel => some { s with cancelled := true }
  | .stanConnect res =>
    match s.pc with
    | .connecting =>
      match res with
      | some err => some { s with pc := .returned .line149 (some (.single err)) }
      | none => some { s with pc := .receiving }
    | _ => none
  | .receiveCtxDone closeRes =>
    match s.pc with
    | .receiving =>
      if s.cancelled = true then
        some { s with pc := .returned .line155 (closeResult closeRes), closed := s.closed ++ [closeRes] }
      else none
    | _ => none
  | .receive msg pubRes closeRes =>
    match s.pc with
    | .receiving =>
      let s := { s with consumed := s.consumed ++ [msg],
                        publishCalls := s.publishCalls ++ [(conf.topic, GetData msg)] }
      match pubRes with
      | some err =>
        some { s with pc := .returned .line160 (some (.single err)), closed := s.closed ++ [closeRes] }
      | none =>
        some { s with pc := .confirming msg, published := s.published ++ [(conf.topic, GetData msg)] }
    | _ => none
  | .confirm =>
    match s.pc with
    | .confirming msg =>
      some { s with pc := .receiving, confirmations := s.confirmations ++ [⟨GetId msg⟩] }
    | _ => none
  | .confirmCtxDone closeRes =>
    match s.pc with
    | .confirming _ =>
      if s.cancelled = true then
        some { s with pc := .returned .line165 (closeResult closeRes), closed := s.closed ++ [closeRes] }
      else none
    | _ => none

/-- Run a schedule: the events are executed in order, `none` if one of them is not enabled. -/
def run (conf : ProducerConfig) : State → List Event → Option State
  | s, [] => some s
  | s, e :: es =>
    match step conf s e with
    | none => none
    | some s1 => run conf s1 es

/-- The states `HandleProduce` can be in, over all schedules and environments. -/
def Reachable (conf : ProducerConfig) (s : State) : Prop := ∃ evs, run conf init evs = some s

/-- The value returned by `HandleProduce`, once it has returned. -/
def returnValue (s : State) : Option Result :=
  match s.pc with
  | .returned _ r => some r
  | _ => none

/-- The message whose publish has succeeded and whose Confirmation is still to be sent. -/
def Pc.awaiting : Pc → List (Option Message)
  | .confirming msg => [msg]
  | _ => []

/-- The loop of `HandleProduce` has not been left. -/
def Pc.running : Pc → Bool
  | .returned _ _ => false
  | _ => true

/-- The publish that a message causes: the session topic and the payload. -/
def publishOf (conf : ProducerConfig) (msg : Option Message) : String × List Nat :=
  (conf.topic, GetData msg)

/-- The Confirmation that a message causes: its identifier. -/
def confirmationOf (msg : Option Message) : Confirmation := ⟨GetId msg⟩

/-- How the observations of a `HandleProduce` session depend on each other. -/
structure Ledger (conf : ProducerConfig) (s : State) : Prop where
  calls : s.publishCalls = s.consumed.map (publishOf conf)
  succeeded : s.published = s.publishCalls
    ∨ (∃ r, s.pc = .returned .line160 r) ∧ ∃ p, s.publishCalls = s.published ++ [p]
  confirmed : s.confirmations ++ s.pc.awaiting.map confirmationOf
    <+: s.consumed.map confirmationOf
  pending : s.confirmations.length + s.pc.awaiting.length ≤ s.published.length
  looping : s.pc.running = true →
    s.published = s.publishCalls
      ∧ s.confirmations ++ s.pc.awaiting.map confirmationOf = s.consumed.map confirmationOf

/-- One round of the session: `msg` is received and published, and its Confirmation is taken
by the client. -/
def publishRound (msg : Option Message) : List Event := [.receive msg none none, .confirm]

/-- The schedule of a session that receives `msgs`, every publish succeeding and every
Confirmation being taken by the client. -/
def publishSchedule (msgs : List (Option Message)) : List Event :=
  [.stanConnect none] ++ msgs.flatMap publishRound

/-- The state a schedule leads to from the call of `HandleProduce` (the initial state if the
schedule cannot be run). -/
def stateAfter (conf : ProducerConfig) (evs : List Event) : State :=
  (run conf init evs).getD init

/-- A produce session on topic "test". -/
def confTest : ProducerConfig := { topic := "test" }

/-- The message with identifier "abc". -/
def msgAbc : Message := { Data := [98], Id := "abc" }

end HandleProduce

end Proximo

/-! ## Properties of the strconv functions -/

namespace Proximo

theorem digitChar_spec (d : Nat) :
    ('0' ≤ digitChar d ∧ digitChar d ≤ '9') ∧ (digitChar d).toNat - '0'.toNat = d % 10 := by
  have key : ∀ k : Fin 10, ('0' ≤ digitChar k.val ∧ digitChar k.val ≤ '9')
      ∧ (digitChar k.val).toNat - '0'.toNat = k.val := by decide
  have hlt : d % 10 < 10 := Nat.mod_lt _ (by decide)
  have h := key ⟨d % 10, hlt⟩
  have e : digitChar (d % 10) = digitChar d := by simp [digitChar]
  simpa [e, Nat.mod_eq_of_lt hlt] using h

theorem parseUintStep_digit (n d : Nat) (h : n * 10 + d % 10 < 2 ^ 64) :
    parseUintStep n (digitChar d) = some (n * 10 + d % 10) := by
  obtain ⟨hr, hv⟩ := digitChar_spec d
  have hd : d % 10 < 10 := Nat.mod_lt _ (by decide)
  unfold parseUintStep
  rw [if_pos hr]
  simp only [hv, maxUint64]
  have h1 : ¬ (n ≥ (2 ^ 64 - 1) / 10 + 1) := by
    norm_num at h ⊢; omega
  rw [if_neg h1]
  have e1 : n * 10 % 2 ^ 64 = n * 10 := Nat.mod_eq_of_lt (by omega)
  have e2 : (n * 10 + d % 10) % 2 ^ 64 = n * 10 + d % 10 := Nat.mod_eq_of_lt h
  rw [e1, e2]
  have h2 : ¬ (n * 10 + d % 10 < n * 10 ∨ n * 10 + d % 10 > 2 ^ 64 - 1) := by
    norm_num at h ⊢; omega
  rw [if_neg h2]

theorem parseUintLoop_append (n : Nat) (xs ys : List Char) :
    parseUintLoop n (xs ++ ys) = (parseUintLoop n xs).bind (fun k => parseUintLoop k ys) := by
  induction xs generalizing n with
  | nil => simp [parseUintLoop]
  | cons c cs ih =>
    simp only [List.cons_append, parseUintLoop]
    cases parseUintStep n c with
    | none => simp
    | some k => simpa using ih k

theorem parseUintLoop_decDigits (fuel n : Nat) (hf : n < 10 ^ fuel) (hn : n < 2 ^ 64) :
    parseUintLoop 0 (decDigits fuel n) = some n := by
  induction fuel generalizing n with
  | zero => simp at hf; subst hf; simp [decDigits, parseUintLoop]
  | succ f ih =>
    unfold decDigits
    split
    · rename_i h10
      have := parseUintStep_digit 0 n (by omega)
      simp [parseUintLoop, this, Nat.mod_eq_of_lt h10]
    · rename_i h10
      have hq : n / 10 < 10 ^ f := by
        rw [Nat.div_lt_iff_lt_mul (by decide)]
        rw [pow_succ] at hf; exact hf
      have hq2 : n / 10 < 2 ^ 64 := lt_of_le_of_lt (Nat.div_le_self _ _) hn
      rw [parseUintLoop_append, ih _ hq hq2]
      have hs := parseUintStep_digit (n / 10) n (by omega)
      simp [parseUintLoop, hs]
      omega

theorem decDigits_ne_nil (fuel n : Nat) : decDigits (fuel + 1) n ≠ [] := by
  unfold decDigits
  split <;> simp

/-- Parsing the decimal string of a `uint64` gives the value back. -/
theorem ParseUint_FormatUint (n : Nat) (hn : n < 2 ^ 64) : ParseUint (FormatUint n) = some n := by
  unfold ParseUint FormatUint
  rw [Nat.mod_eq_of_lt hn]
  rw [if_neg (decDigits_ne_nil 19 n)]
  exact parseUintLoop_decDigits 20 n (lt_trans hn (by norm_num)) hn

end Proximo

/-! ## Properties of HandleConsume -/

namespace Proximo

namespace HandleConsume

theorem run_append (h : Handler) (s : State) (xs ys : List Event) :
    run h s (xs ++ ys) = (run h s xs).bind (fun s1 => run h s1 ys) := by
  induction xs generalizing s with
  | nil => simp [run]
  | cons e es ih =>
    simp only [List.cons_append, run]
    cases step h s e with
    | none => simp
    | some s1 => simpa using ih s1

theorem reachable_init (h : Handler) : Reachable h init := ⟨[], rfl⟩

theorem reachable_step {h : Handler} {s s1 : State} {e : Event} (hr : Reachable h s)
    (hs : step h s e = some s1) : Reachable h s1 := by
  obtain ⟨evs, hevs⟩ := hr
  exact ⟨evs ++ [e], by simp [run_append, hevs, run, hs]⟩

theorem reachable_run {h : Handler} {s s1 : State} {evs : List Event} (hr : Reachable h s)
    (hs : run h s evs = some s1) : Reachable h s1 := by
  obtain ⟨pre, hpre⟩ := hr
  exact ⟨pre ++ evs, by simp [run_append, hpre, hs]⟩

/-- A property that holds initially and is kept by every step holds in every reachable state. -/
theorem reachable_induction {h : Handler} (P : State → Prop) (h0 : P init)
    (hstep : ∀ s e s1, Reachable h s → P s → step h s e = some s1 → P s1) :
    ∀ s, Reachable h s → P s := by
  intro s ⟨evs, hevs⟩
  induction evs using List.reverseRecOn generalizing s with
  | nil => simp [run] at hevs; subst hevs; exact h0
  | append_singleton es e ih =>
    rw [run_append] at hevs
    cases hmid : run h init es with
    | none => simp [hmid] at hevs
    | some mid =>
      simp only [hmid, Option.some_bind, run] at hevs
      cases hst : step h mid e with
      | none => simp [hst] at hevs
      | some s2 =>
        simp only [hst, Option.some.injEq] at hevs
        subst hevs
        exact hstep mid e s2 ⟨es, hmid⟩ (ih mid hmid) hst

/-! ### What each event does -/

theorem step_cancel {h : Handler} {s s1 : State} (hs : step h s .cancel = some s1) :
    s1 = { s with cancelled := true } := by
  simp [step] at hs; exact hs.symm

theorem step_stanConnect {h : Handler} {s s1 : State} {res : Option BaseErr}
    (hs : step h s (.stanConnect res) = some s1) :
    s.main = .connecting ∧
      ((∃ err, res = some err ∧ s1 = { s with main := .returned .line42 (some (.single err)) })
      ∨ (res = none ∧ h.maxInflight < 0
          ∧ s1 = { s with main := .panicked, opened := s.opened ++ [.conn] })
      ∨ (res = none ∧ 0 ≤ h.maxInflight
          ∧ s1 = { s with main := .subscribing, ack := .outer, opened := s.opened ++ [.conn] })) := by
  simp only [step] at hs
  split at hs
  · split at hs
    · simp at hs; simp_all
    · split at hs
      · simp at hs; simp_all
      · simp at hs; simp_all
  · simp at hs

theorem step_queueSubscribe {h : Handler} {s s1 : State} {res : Option BaseErr}
    (hs : step h s (.queueSubscribe res) = some s1) :
    s.main = .subscribing ∧
      ((∃ err, res = some err ∧ s1 = { s with main := .returned .line102 (some (.single err)) })
      ∨ (res = none ∧ 1 ≤ h.maxInflight
          ∧ s1 = { s with main := .selecting, opened := s.opened ++ [.subscription] })) := by
  simp only [step] at hs
  split at hs
  · split at hs
    · simp at hs; simp_all
    · split at hs
      · simp at hs; simp_all
      · simp at hs
  · simp at hs

theorem step_deliver {h : Handler} {s s1 : State} {msg : StanMsg}
    (hs : step h s (.deliver msg) = some s1) :
    subscribed s = true ∧ s.cb = .idle ∧ msg.Sequence < 2 ^ 64
      ∧ s1 = { s with cb := .forwarding msg, received := s.received ++ [msg] } := by
  simp only [step] at hs
  split at hs
  · rename_i hg
    simp at hs
    exact ⟨hg.1, hg.2.1, hg.2.2, hs.symm⟩
  · simp at hs

theorem step_forward {h : Handler} {s s1 : State} (hs : step h s .forward = some s1) :
    ∃ msg, s.cb = .forwarding msg
      ∧ s1 = { s with cb := .enqueuing msg, delivered := s.delivered ++ [toMessage msg] } := by
  simp only [step] at hs
  split at hs
  · rename_i msg hcb
    simp at hs
    exact ⟨msg, hcb, hs.symm⟩
  · simp at hs

theorem step_callbackCtxDone {h : Handler} {s s1 : State}
    (hs : step h s .callbackCtxDone = some s1) :
    ∃ msg, s.cb = .forwarding msg ∧ s.cancelled = true ∧ s1 = { s with cb := .idle } := by
  simp only [step] at hs
  split at hs
  · rename_i msg hcb
    split at hs
    · rename_i hc
      simp at hs
      exact ⟨msg, hcb, hc, hs.symm⟩
    · simp at hs
  · simp at hs

theorem step_enqueue {h : Handler} {s s1 : State} (hs : step h s .enqueue = some s1) :
    ∃ msg, s.cb = .enqueuing msg ∧
      ((s.ackQueue.length < h.maxInflight.toNat
          ∧ s1 = { s with cb := .idle, ackQueue := s.ackQueue ++ [msg] })
      ∨ (h.maxInflight.toNat = 0 ∧ s.ack = .outer
          ∧ s1 = { s with cb := .idle, ack := .inner msg })) := by
  simp only [step] at hs
  split at hs
  · rename_i msg hcb
    refine ⟨msg, hcb, ?_⟩
    split at hs
    · rename_i hlt
      simp at hs
      exact Or.inl ⟨hlt, hs.symm⟩
    · split at hs
      · rename_i hz
        simp at hs
        exact Or.inr ⟨hz.1, hz.2, hs.symm⟩
      · simp at hs
  · simp at hs

theorem step_pop {h : Handler} {s s1 : State} (hs : step h s .pop = some s1) :
    ∃ msg rest, s.ack = .outer ∧ s.ackQueue = msg :: rest
      ∧ s1 = { s with ack := .inner msg, ackQueue := rest } := by
  simp only [step] at hs
  split at hs
  · rename_i msg rest hack hq
    simp at hs
    exact ⟨msg, rest, hack, hq, hs.symm⟩
  · simp at hs

theorem step_outerCtxDone {h : Handler} {s s1 : State} (hs : step h s .outerCtxDone = some s1) :
    s.ack = .outer ∧ s.cancelled = true ∧ s1 = { s with ack := .done } := by
  simp only [step] at hs
  split at hs
  · rename_i hack
    split at hs
    · rename_i hc
      simp at hs
      exact ⟨hack, hc, hs.symm⟩
    · simp at hs
  · simp at hs

theorem step_confirm {h : Handler} {s s1 : State} {cr : Confirmation} {ackRes : Option BaseErr}
    (hs : step h s (.confirm cr ackRes) = some s1) :
    ∃ msg, s.ack = .inner msg ∧ s1 = handleConfirmation s msg cr ackRes := by
  simp only [step] at hs
  split at hs
  · rename_i msg hack
    simp at hs
    exact ⟨msg, hack, hs.symm⟩
  · simp at hs

theorem step_innerCtxDone {h : Handler} {s s1 : State} (hs : step h s .innerCtxDone = some s1) :
    ∃ msg, s.ack = .inner msg ∧ s.cancelled = true ∧ s1 = { s with ack := .done } := by
  simp only [step] at hs
  split at hs
  · rename_i msg hack
    split at hs
    · rename_i hc
      simp at hs
      exact ⟨msg, hack, hc, hs.symm⟩
    · simp at hs
  · simp at hs

theorem step_mainCtxDone {h : Handler} {s s1 : State} (hs : step h s .mainCtxDone = some s1) :
    s.main = .selecting ∧ s.cancelled = true ∧ s1 = { s with main := .waitCancel } := by
  simp only [step] at hs
  split at hs
  · rename_i hm
    split at hs
    · rename_i hc
      simp at hs
      exact ⟨hm, hc, hs.symm⟩
    · simp at hs
  · simp at hs

theorem step_mainRecvErr {h : Handler} {s s1 : State} (hs : step h s .mainRecvErr = some s1) :
    ∃ err, s.main = .selecting ∧ s.ack = .sending err
      ∧ s1 = { s with main := .waitFailure err, ack := .done } := by
  simp only [step] at hs
  split at hs
  · rename_i err hm hack
    simp at hs
    exact ⟨err, hm, hack, hs.symm⟩
  · simp at hs

theorem step_finish {h : Handler} {s s1 : State} {subRes connRes : Option BaseErr}
    (hs : step h s (.finish subRes connRes) = some s1) :
    s.ack = .done ∧
      ((s.main = .waitCancel
          ∧ s1 = { s with main := .returned .line117 (closeAll subRes connRes),
                          closed := s.closed ++ [(.subscription, subRes), (.conn, connRes)] })
      ∨ (∃ err, s.main = .waitFailure err
          ∧ s1 = { s with main := .returned .line121 (some (.single err)),
                          closed := s.closed ++ [(.subscription, subRes), (.conn, connRes)] })) := by
  simp only [step] at hs
  split at hs
  · rename_i hack
    refine ⟨hack, ?_⟩
    split at hs
    · rename_i hm
      simp at hs
      exact Or.inl ⟨hm, hs.symm⟩
    · rename_i err hm
      simp at hs
      exact Or.inr ⟨err, hm, hs.symm⟩
    · simp at hs
  · simp at hs

/-- What `handleConfirmation` does, by the outcome of the checks. -/
theorem handleConfirmation_cases (s : State) (msg : StanMsg) (cr : Confirmation)
    (ackRes : Option BaseErr) :
    (ParseUint cr.MsgID ≠ some msg.Sequence
      ∧ ∃ e, (e = parseError cr.MsgID ∧ ParseUint cr.MsgID = none
              ∨ ∃ seq, ParseUint cr.MsgID = some seq ∧ e = sequenceError seq msg.Sequence)
          ∧ handleConfirmation s msg cr ackRes
            = { s with confirms := s.confirms ++ [cr.MsgID], ack := .sending e })
    ∨ (ParseUint cr.MsgID = some msg.Sequence
      ∧ ∃ err, ackRes = some err ∧ handleConfirmation s msg cr ackRes
          = { s with confirms := s.confirms ++ [cr.MsgID], ackCalls := s.ackCalls ++ [msg],
                     ack := .sending (ackError err) })
    ∨ (ParseUint cr.MsgID = some msg.Sequence ∧ ackRes = none
      ∧ handleConfirmation s msg cr ackRes
          = { s with confirms := s.confirms ++ [cr.MsgID], ackCalls := s.ackCalls ++ [msg],
                     acked := s.acked ++ [msg], accepted := s.accepted ++ [cr.MsgID],
                     ack := .outer }) := by
  unfold handleConfirmation
  cases hp : ParseUint cr.MsgID with
  | none => exact Or.inl ⟨by simp, parseError cr.MsgID, Or.inl ⟨rfl, rfl⟩, rfl⟩
  | some seq =>
    by_cases hseq : seq = msg.Sequence
    · subst hseq
      cases ackRes with
      | some err => exact Or.inr (Or.inl ⟨rfl, err, rfl, by simp⟩)
      | none => exact Or.inr (Or.inr ⟨rfl, rfl, by simp⟩)
    · refine Or.inl ⟨by simpa using hseq, sequenceError seq msg.Sequence,
        Or.inr ⟨seq, rfl, rfl⟩, ?_⟩
      simp only [ne_eq, hseq, not_false_eq_true, ↓reduceIte]

/-! ### Invariants -/

theorem control_init : Control init := by simp [Control, init]

theorem control_step {h : Handler} {s s1 : State} {e : Event} (hc : Control s)
    (hs : step h s e = some s1) : Control s1 := by
  cases e with
  | cancel =>
    obtain rfl := step_cancel hs
    cases hm : s.main with
    | returned site r =>
      cases site <;> simp_all [Control]
      tauto
    | _ => simp_all [Control] <;> tauto
  | stanConnect res =>
    obtain ⟨hm, hh⟩ := step_stanConnect hs
    rcases hh with ⟨err, -, rfl⟩ | ⟨-, -, rfl⟩ | ⟨-, -, rfl⟩ <;> simp_all [Control]
  | queueSubscribe res =>
    obtain ⟨hm, hh⟩ := step_queueSubscribe hs
    rcases hh with ⟨err, -, rfl⟩ | ⟨-, -, rfl⟩ <;> simp_all [Control]
    rcases hc.1 with h1 | h1 <;> simp [h1]
  | deliver msg =>
    obtain ⟨hsub, hcb, -, rfl⟩ := step_deliver hs
    cases hm : s.main with
    | returned site r => simp [subscribed, hm] at hsub
    | _ => simp_all [Control, subscribed]
  | forward =>
    obtain ⟨msg, hcb, rfl⟩ := step_forward hs
    cases hm : s.main with
    | returned site r => cases site <;> simp_all [Control]
    | _ => simp_all [Control]
  | callbackCtxDone =>
    obtain ⟨msg, hcb, hcan, rfl⟩ := step_callbackCtxDone hs
    cases hm : s.main with
    | returned site r => cases site <;> simp_all [Control]
    | _ => simp_all [Control]
  | enqueue =>
    obtain ⟨msg, hcb, hh⟩ := step_enqueue hs
    rcases hh with ⟨-, rfl⟩ | ⟨-, hack, rfl⟩ <;>
      (cases hm : s.main with
       | returned site r => cases site <;> simp_all [Control]
       | _ => simp_all [Control])
  | pop =>
    obtain ⟨msg, rest, hack, hq, rfl⟩ := step_pop hs
    cases hm : s.main with
    | returned site r => cases site <;> simp_all [Control]
    | _ => simp_all [Control]
  | outerCtxDone =>
    obtain ⟨hack, hcan, rfl⟩ := step_outerCtxDone hs
    cases hm : s.main with
    | returned site r => cases site <;> simp_all [Control]
    | _ => simp_all [Control]
  | confirm cr ackRes =>
    obtain ⟨msg, hack, rfl⟩ := step_confirm hs
    rcases handleConfirmation_cases s msg cr ackRes with ⟨-, e, -, he⟩ | ⟨-, err, -, he⟩ | ⟨-, -, he⟩ <;>
      (rw [he]
       cases hm : s.main with
       | returned site r => cases site <;> simp_all [Control]
       | _ => simp_all [Control])
  | innerCtxDone =>
    obtain ⟨msg, hack, hcan, rfl⟩ := step_innerCtxDone hs
    cases hm : s.main with
    | returned site r => cases site <;> simp_all [Control]
    | _ => simp_all [Control]
  | mainCtxDone =>
    obtain ⟨hm, hcan, rfl⟩ := step_mainCtxDone hs
    simp_all [Control]
  | mainRecvErr =>
    obtain ⟨err, hm, hack, rfl⟩ := step_mainRecvErr hs
    simp_all [Control]
  | finish subRes connRes =>
    obtain ⟨hack, hh⟩ := step_finish hs
    rcases hh with ⟨hm, rfl⟩ | ⟨err, hm, rfl⟩
    · simp_all [Control]
      exact ⟨_, _, ⟨rfl, rfl⟩, rfl⟩
    · simp_all [Control]

theorem control_of_reachable {h : Handler} {s : State} (hr : Reachable h s) : Control s :=
  reachable_induction Control control_init (fun _ _ _ _ hc hs => control_step hc hs) s hr

theorem window_init (h : Handler) : Window h init := by
  constructor <;>
    simp [init, AckPc.live, AckPc.held, CallbackPc.forwarded, CallbackPc.inHand,
      CallbackPc.forwardingCount]

theorem window_step {h : Handler} {s s1 : State} {e : Event} (hc : Control s) (hw : Window h s)
    (hs : step h s e = some s1) : Window h s1 := by
  obtain ⟨fifo, bound, calls, parsed, confirmed, handed, capacity, fromBroker, inHand, sent⟩ := hw
  cases e with
  | cancel =>
    obtain rfl := step_cancel hs
    exact ⟨fifo, bound, calls, parsed, confirmed, handed, capacity, fromBroker, inHand, sent⟩
  | stanConnect res =>
    obtain ⟨hm, hh⟩ := step_stanConnect hs
    have hack : s.ack = .notStarted := by simp_all [Control]
    rcases hh with ⟨err, -, rfl⟩ | ⟨-, -, rfl⟩ | ⟨-, -, rfl⟩
    · exact ⟨fifo, bound, calls, parsed, confirmed, handed, capacity, fromBroker, inHand, sent⟩
    · exact ⟨fifo, bound, calls, parsed, confirmed, handed, capacity, fromBroker, inHand, sent⟩
    · simp only [hack, AckPc.live, AckPc.held] at fifo bound calls confirmed
      exact ⟨fifo, bound, calls, parsed, confirmed, handed, capacity, fromBroker, inHand, sent⟩
  | queueSubscribe res =>
    obtain ⟨hm, hh⟩ := step_queueSubscribe hs
    rcases hh with ⟨err, -, rfl⟩ | ⟨-, -, rfl⟩ <;>
      exact ⟨fifo, bound, calls, parsed, confirmed, handed, capacity, fromBroker, inHand, sent⟩
  | deliver msg =>
    obtain ⟨hsub, hcb, hseq, rfl⟩ := step_deliver hs
    simp only [hcb, CallbackPc.forwarded, CallbackPc.inHand, CallbackPc.forwardingCount]
      at fifo bound handed
    refine ⟨fifo, ?_, calls, parsed, confirmed, ?_, capacity, ?_, ?_, ?_⟩
    · intro m hm
      simp only [CallbackPc.inHand, List.mem_append, List.mem_singleton] at hm
      rcases hm with hm | rfl
      · exact bound m (by simp only [List.append_nil, List.mem_append]; exact hm)
      · exact hseq
    · simp only [CallbackPc.forwardingCount, List.length_append, List.length_singleton]
      omega
    · intro m hm
      simp only [List.mem_append, List.mem_singleton] at hm
      rcases hm with hm | rfl
      · exact fromBroker m hm
      · exact hseq
    · intro m hm
      simp only [CallbackPc.inHand, List.mem_singleton] at hm
      simp [hm]
    · intro m hm
      obtain ⟨msg1, h1, h2⟩ := sent m hm
      exact ⟨msg1, by simp [h1], h2⟩
  | forward =>
    obtain ⟨msg, hcb, rfl⟩ := step_forward hs
    simp only [hcb, CallbackPc.forwarded, CallbackPc.inHand, CallbackPc.forwardingCount]
      at fifo bound handed inHand
    refine ⟨?_, bound, calls, parsed, ?_, ?_, capacity, fromBroker, inHand, ?_⟩
    rotate_right
    · intro m hm
      simp only [List.mem_append, List.mem_singleton] at hm
      rcases hm with hm | rfl
      · exact sent m hm
      · exact ⟨msg, inHand msg (by simp), rfl⟩
    · simp only [CallbackPc.forwarded]
      split
      · rename_i hl
        rw [if_pos hl] at fifo
        simp only [fifo, List.map_append, List.append_nil, List.append_assoc, List.map_cons,
          List.map_nil]
      · rename_i hl
        rw [if_neg hl] at fifo
        exact fifo.trans (List.prefix_append _ _)
    · rcases confirmed with hcf | ⟨hl, c, m, h1, h2, h3, h4⟩
      · exact Or.inl hcf
      · exact Or.inr ⟨hl, c, m, h1, h2, h3.trans (List.prefix_append _ _), h4⟩
    · simp only [CallbackPc.forwardingCount, List.length_append, List.length_singleton]
      omega
  | callbackCtxDone =>
    obtain ⟨msg, hcb, hcan, rfl⟩ := step_callbackCtxDone hs
    simp only [hcb, CallbackPc.forwarded, CallbackPc.inHand, CallbackPc.forwardingCount]
      at fifo bound handed
    refine ⟨fifo, ?_, calls, parsed, confirmed, ?_, capacity, fromBroker, (by intro m hm; simp [CallbackPc.inHand] at hm), sent⟩
    · intro m hm
      simp only [CallbackPc.inHand, List.append_nil] at hm
      exact bound m (by simp only [List.mem_append] at hm ⊢; exact Or.inl hm)
    · simp only [CallbackPc.forwardingCount]
      omega
  | enqueue =>
    obtain ⟨msg, hcb, hh⟩ := step_enqueue hs
    simp only [hcb, CallbackPc.forwarded, CallbackPc.inHand, CallbackPc.forwardingCount]
      at fifo bound handed
    rcases hh with ⟨hlt, rfl⟩ | ⟨hz, hack, rfl⟩
    · refine ⟨?_, ?_, calls, parsed, confirmed, ?_, ?_, fromBroker,
        (by intro m hm; simp [CallbackPc.inHand] at hm), sent⟩
      · simp only [CallbackPc.forwarded, List.append_nil]
        simpa only [List.append_assoc] using fifo
      · intro m hm
        apply bound m
        simp only [CallbackPc.inHand, List.mem_append, List.mem_singleton, List.append_nil] at hm ⊢
        tauto
      · simpa only [CallbackPc.forwardingCount] using handed
      · simp only [List.length_append, List.length_singleton]
        omega
    · have hq : s.ackQueue = [] := by
        apply List.eq_nil_of_length_eq_zero
        omega
      simp only [hack, hq, AckPc.live, AckPc.held] at fifo bound calls confirmed
      refine ⟨?_, ?_, ?_, parsed, ?_, ?_, capacity, fromBroker,
        (by intro m hm; simp [CallbackPc.inHand] at hm), sent⟩
      · simpa only [AckPc.live, AckPc.held, CallbackPc.forwarded, hq, List.append_nil, if_true]
          using fifo
      · intro m hm
        apply bound m
        simp only [AckPc.held, CallbackPc.inHand, hq, List.mem_append, List.mem_singleton,
          List.append_nil] at hm ⊢
        tauto
      · simpa only [AckPc.live] using calls
      · simpa only [AckPc.live] using confirmed
      · simpa only [CallbackPc.forwardingCount] using handed
  | pop =>
    obtain ⟨msg, rest, hack, hq, rfl⟩ := step_pop hs
    simp only [hack, hq, AckPc.live, AckPc.held] at fifo bound calls confirmed capacity
    refine ⟨?_, ?_, ?_, parsed, ?_, handed, ?_, fromBroker, inHand, sent⟩
    · simpa only [AckPc.live, AckPc.held, List.append_nil, if_true, List.append_assoc,
        List.singleton_append] using fifo
    · intro m hm
      apply bound m
      simp only [AckPc.held, List.mem_append, List.mem_singleton, List.mem_cons,
        List.append_nil] at hm ⊢
      tauto
    · simpa only [AckPc.live] using calls
    · simpa only [AckPc.live] using confirmed
    · simp only [List.length_cons] at capacity
      show rest.length ≤ h.maxInflight.toNat
      omega
  | outerCtxDone =>
    obtain ⟨hack, hcan, rfl⟩ := step_outerCtxDone hs
    simp only [hack, AckPc.live, AckPc.held, if_true, List.append_nil] at fifo bound calls confirmed
    refine ⟨?_, ?_, ?_, parsed, ?_, handed, capacity, fromBroker, inHand, sent⟩
    · simp only [AckPc.live, Bool.false_eq_true, if_false]
      show List.map toMessage s.ackCalls <+: s.delivered
      rw [fifo]
      simp only [List.map_append, List.append_assoc]
      exact List.prefix_append _ _
    · intro m hm
      apply bound m
      simp only [AckPc.held, List.mem_append, List.append_nil] at hm ⊢
      tauto
    · rcases calls with hcl | ⟨hl, -⟩
      · exact Or.inl hcl
      · simp at hl
    · rcases confirmed with hcf | ⟨hl, -⟩
      · exact Or.inl hcf
      · simp at hl
  | innerCtxDone =>
    obtain ⟨msg, hack, hcan, rfl⟩ := step_innerCtxDone hs
    simp only [hack, AckPc.live, AckPc.held, if_true] at fifo bound calls confirmed
    refine ⟨?_, ?_, ?_, parsed, ?_, handed, capacity, fromBroker, inHand, sent⟩
    · simp only [AckPc.live, Bool.false_eq_true, if_false]
      show List.map toMessage s.ackCalls <+: s.delivered
      rw [fifo]
      simp only [List.map_append, List.append_assoc]
      exact List.prefix_append _ _
    · intro m hm
      apply bound m
      simp only [AckPc.held, List.mem_append, List.append_nil, List.mem_singleton] at hm ⊢
      tauto
    · rcases calls with hcl | ⟨hl, -⟩
      · exact Or.inl hcl
      · simp at hl
    · rcases confirmed with hcf | ⟨hl, -⟩
      · exact Or.inl hcf
      · simp at hl
  | mainCtxDone =>
    obtain ⟨hm, hcan, rfl⟩ := step_mainCtxDone hs
    exact ⟨fifo, bound, calls, parsed, confirmed, handed, capacity, fromBroker, inHand, sent⟩
  | mainRecvErr =>
    obtain ⟨err, hm, hack, rfl⟩ := step_mainRecvErr hs
    rw [hack] at fifo bound calls confirmed
    exact ⟨fifo, bound, calls, parsed, confirmed, handed, capacity, fromBroker, inHand, sent⟩
  | finish subRes connRes =>
    obtain ⟨hack, hh⟩ := step_finish hs
    rcases hh with ⟨hm, rfl⟩ | ⟨err, hm, rfl⟩ <;>
      exact ⟨fifo, bound, calls, parsed, confirmed, handed, capacity, fromBroker, inHand, sent⟩
  | confirm cr ackRes =>
    obtain ⟨msg, hack, rfl⟩ := step_confirm hs
    simp only [hack, AckPc.live, AckPc.held, if_true] at fifo bound calls confirmed
    have hcalls : s.ackCalls = s.acked := by
      rcases calls with hcl | ⟨hl, -⟩
      · exact hcl
      · simp at hl
    have hconf : s.confirms = s.accepted := by
      rcases confirmed with hcf | ⟨hl, -⟩
      · exact hcf
      · simp at hl
    have hmsg : msg.Sequence < 2 ^ 64 := bound msg (by simp)
    rcases handleConfirmation_cases s msg cr ackRes with ⟨hne, e, -, he⟩ | ⟨hp, err, -, he⟩ | ⟨hp, -, he⟩
    · rw [he]
      refine ⟨?_, ?_, Or.inl hcalls, parsed, ?_, handed, capacity, fromBroker, inHand, sent⟩
      · simp only [AckPc.live, Bool.false_eq_true, if_false]
        show List.map toMessage s.ackCalls <+: s.delivered
        rw [fifo]
        simp only [List.map_append, List.append_assoc]
        exact List.prefix_append _ _
      · intro m hm
        apply bound m
        simp only [AckPc.held, List.mem_append, List.append_nil, List.mem_singleton] at hm ⊢
        tauto
      · refine Or.inr ⟨rfl, cr.MsgID, msg, ?_, hmsg, ?_, Or.inr hne⟩
        · show s.confirms ++ [cr.MsgID] = s.accepted ++ [cr.MsgID]
          rw [hconf]
        · show List.map toMessage (s.acked ++ [msg]) <+: s.delivered
          rw [fifo, hcalls]
          simp only [List.map_append, List.append_assoc]
          rw [← List.append_assoc]
          exact List.prefix_append _ _
    · rw [he]
      refine ⟨?_, ?_, ?_, parsed, ?_, handed, capacity, fromBroker, inHand, sent⟩
      · simp only [AckPc.live, Bool.false_eq_true, if_false]
        show List.map toMessage (s.ackCalls ++ [msg]) <+: s.delivered
        rw [fifo]
        simp only [List.map_append, List.append_assoc]
        rw [← List.append_assoc]
        exact List.prefix_append _ _
      · intro m hm
        apply bound m
        simp only [AckPc.held, List.mem_append, List.append_nil, List.mem_singleton] at hm ⊢
        tauto
      · exact Or.inr ⟨rfl, msg, by show s.ackCalls ++ [msg] = s.acked ++ [msg]; rw [hcalls]⟩
      · refine Or.inr ⟨rfl, cr.MsgID, msg, ?_, hmsg, ?_, Or.inl ?_⟩
        · show s.confirms ++ [cr.MsgID] = s.accepted ++ [cr.MsgID]
          rw [hconf]
        · show List.map toMessage (s.acked ++ [msg]) <+: s.delivered
          rw [fifo, hcalls]
          simp only [List.map_append, List.append_assoc]
          rw [← List.append_assoc]
          exact List.prefix_append _ _
        · show s.ackCalls ++ [msg] = s.acked ++ [msg]
          rw [hcalls]
    · rw [he]
      refine ⟨?_, ?_, ?_, ?_, ?_, handed, capacity, fromBroker, inHand, sent⟩
      · simp only [AckPc.live, AckPc.held, if_true]
        show s.delivered = _
        rw [fifo]
        simp only [List.map_append, List.append_assoc, List.append_nil, List.nil_append]
      · intro m hm
        apply bound m
        simp only [AckPc.held, List.mem_append, List.append_nil, List.mem_singleton] at hm ⊢
        tauto
      · exact Or.inl (by show s.ackCalls ++ [msg] = s.acked ++ [msg]; rw [hcalls])
      · show List.map ParseUint (s.accepted ++ [cr.MsgID])
          = List.map (fun m => some m.Sequence) (s.acked ++ [msg])
        simp only [List.map_append, parsed, List.map_cons, List.map_nil, hp]
      · exact Or.inl (by show s.confirms ++ [cr.MsgID] = s.accepted ++ [cr.MsgID]; rw [hconf])

theorem window_of_reachable {h : Handler} {s : State} (hr : Reachable h s) : Window h s :=
  reachable_induction (Window h) (window_init h)
    (fun _ _ _ hr hw hs => window_step (control_of_reachable hr) hw hs) s hr

theorem slack_step {h : Handler} {s s1 : State} {e : Event} (hw : Window h s) (hsl : Slack s)
    (hs : step h s e = some s1) : Slack s1 := by
  unfold Slack at hsl ⊢
  have hfifo := hw.fifo
  have hcalls := hw.calls
  cases e with
  | cancel => obtain rfl := step_cancel hs; exact hsl
  | stanConnect res =>
    obtain ⟨-, hh⟩ := step_stanConnect hs
    rcases hh with ⟨err, -, rfl⟩ | ⟨-, -, rfl⟩ | ⟨-, -, rfl⟩ <;> exact hsl
  | queueSubscribe res =>
    obtain ⟨-, hh⟩ := step_queueSubscribe hs
    rcases hh with ⟨err, -, rfl⟩ | ⟨-, -, rfl⟩ <;> exact hsl
  | deliver msg =>
    obtain ⟨-, hcb, -, rfl⟩ := step_deliver hs
    rw [hcb] at hsl
    exact hsl
  | forward =>
    obtain ⟨msg, hcb, rfl⟩ := step_forward hs
    rw [hcb] at hsl
    simp only [CallbackPc.forwarded, List.length_nil, List.length_append, List.length_singleton]
      at hsl ⊢
    omega
  | callbackCtxDone =>
    obtain ⟨msg, hcb, -, rfl⟩ := step_callbackCtxDone hs
    rw [hcb] at hsl
    exact hsl
  | enqueue =>
    obtain ⟨msg, hcb, hh⟩ := step_enqueue hs
    rw [hcb] at hsl hfifo
    simp only [CallbackPc.forwarded, List.length_singleton] at hsl
    rcases hh with ⟨-, rfl⟩ | ⟨hz, hack, rfl⟩
    · simp only [CallbackPc.forwarded, List.length_nil, List.length_append, List.length_singleton]
      omega
    · have hq : s.ackQueue = [] := by
        apply List.eq_nil_of_length_eq_zero
        have := hw.capacity
        omega
      simp only [hack, hq, AckPc.live, AckPc.held, CallbackPc.forwarded, if_true,
        List.append_nil] at hfifo hcalls
      have hc : s.ackCalls = s.acked := by
        rcases hcalls with hc | ⟨hl, -⟩
        · exact hc
        · simp at hl
      have hlen := congrArg List.length hfifo
      simp only [List.length_map, List.length_append, List.length_singleton, hc] at hlen
      simp only [CallbackPc.forwarded, List.length_nil, hq]
      omega
  | pop =>
    obtain ⟨msg, rest, hack, hq, rfl⟩ := step_pop hs
    simp only [hack, hq, AckPc.live, AckPc.held, if_true, List.append_nil] at hfifo hcalls
    have hc : s.ackCalls = s.acked := by
      rcases hcalls with hc | ⟨hl, -⟩
      · exact hc
      · simp at hl
    have hlen := congrArg List.length hfifo
    simp only [List.length_map, List.length_append, List.length_cons, hc] at hlen
    show s.delivered.length ≤ s.acked.length + 1 + rest.length + s.cb.forwarded.length
    omega
  | outerCtxDone => obtain ⟨-, -, rfl⟩ := step_outerCtxDone hs; exact hsl
  | confirm cr ackRes =>
    obtain ⟨msg, hack, rfl⟩ := step_confirm hs
    rcases handleConfirmation_cases s msg cr ackRes with
      ⟨-, e, -, he⟩ | ⟨-, err, -, he⟩ | ⟨-, -, he⟩
    · rw [he]; exact hsl
    · rw [he]; exact hsl
    · rw [he]
      show s.delivered.length
        ≤ (s.acked ++ [msg]).length + 1 + s.ackQueue.length + s.cb.forwarded.length
      simp only [List.length_append, List.length_singleton]
      omega
  | innerCtxDone => obtain ⟨msg, -, -, rfl⟩ := step_innerCtxDone hs; exact hsl
  | mainCtxDone => obtain ⟨-, -, rfl⟩ := step_mainCtxDone hs; exact hsl
  | mainRecvErr => obtain ⟨err, -, -, rfl⟩ := step_mainRecvErr hs; exact hsl
  | finish subRes connRes =>
    obtain ⟨-, hh⟩ := step_finish hs
    rcases hh with ⟨-, rfl⟩ | ⟨err, -, rfl⟩ <;> exact hsl

theorem slack_of_reachable {h : Handler} {s : State} (hr : Reachable h s) : Slack s :=
  reachable_induction Slack (by simp [Slack, init])
    (fun _ _ _ hr hsl hs => slack_step (window_of_reachable hr) hsl hs) s hr


end HandleConsume

end Proximo

namespace Proximo

namespace HandleConsume

/-! ### After the acknowledgment goroutine has stopped -/

/-- Once the acknowledgment goroutine has failed or returned it stays so, and no further
`msg.Ack()` is called. -/
theorem stopped_step {h : Handler} {s s1 : State} {e : Event} (hc : Control s)
    (hl : s.ack.live = false) (hs : step h s e = some s1) :
    s1.ack.live = false ∧ s1.ackCalls = s.ackCalls ∧ s1.acked = s.acked := by
  cases e with
  | cancel => obtain rfl := step_cancel hs; exact ⟨hl, rfl, rfl⟩
  | stanConnect res =>
    obtain ⟨hm, hh⟩ := step_stanConnect hs
    have hack : s.ack = .notStarted := by simp_all [Control]
    simp [hack, AckPc.live] at hl
  | queueSubscribe res =>
    obtain ⟨hm, hh⟩ := step_queueSubscribe hs
    rcases hh with ⟨err, -, rfl⟩ | ⟨-, -, rfl⟩ <;> exact ⟨hl, rfl, rfl⟩
  | deliver msg => obtain ⟨-, -, -, rfl⟩ := step_deliver hs; exact ⟨hl, rfl, rfl⟩
  | forward => obtain ⟨msg, -, rfl⟩ := step_forward hs; exact ⟨hl, rfl, rfl⟩
  | callbackCtxDone => obtain ⟨msg, -, -, rfl⟩ := step_callbackCtxDone hs; exact ⟨hl, rfl, rfl⟩
  | enqueue =>
    obtain ⟨msg, hcb, hh⟩ := step_enqueue hs
    rcases hh with ⟨-, rfl⟩ | ⟨-, hack, rfl⟩
    · exact ⟨hl, rfl, rfl⟩
    · simp [hack, AckPc.live] at hl
  | pop =>
    obtain ⟨msg, rest, hack, -, rfl⟩ := step_pop hs
    simp [hack, AckPc.live] at hl
  | outerCtxDone =>
    obtain ⟨hack, -, rfl⟩ := step_outerCtxDone hs
    simp [hack, AckPc.live] at hl
  | confirm cr ackRes =>
    obtain ⟨msg, hack, rfl⟩ := step_confirm hs
    simp [hack, AckPc.live] at hl
  | innerCtxDone =>
    obtain ⟨msg, hack, -, rfl⟩ := step_innerCtxDone hs
    simp [hack, AckPc.live] at hl
  | mainCtxDone => obtain ⟨-, -, rfl⟩ := step_mainCtxDone hs; exact ⟨hl, rfl, rfl⟩
  | mainRecvErr => obtain ⟨err, -, -, rfl⟩ := step_mainRecvErr hs; exact ⟨rfl, rfl, rfl⟩
  | finish subRes connRes =>
    obtain ⟨hack, hh⟩ := step_finish hs
    rcases hh with ⟨hm, rfl⟩ | ⟨err, hm, rfl⟩ <;> exact ⟨hl, rfl, rfl⟩

theorem stopped_run {h : Handler} {evs : List Event} {s s1 : State} (hr : Reachable h s)
    (hl : s.ack.live = false) (hs : run h s evs = some s1) :
    s1.ack.live = false ∧ s1.ackCalls = s.ackCalls ∧ s1.acked = s.acked := by
  induction evs generalizing s with
  | nil => simp [run] at hs; subst hs; exact ⟨hl, rfl, rfl⟩
  | cons e es ih =>
    simp only [run] at hs
    cases hst : step h s e with
    | none => simp [hst] at hs
    | some s2 =>
      simp only [hst] at hs
      obtain ⟨h1, h2, h3⟩ := stopped_step (control_of_reachable hr) hl hst
      obtain ⟨k1, k2, k3⟩ := ih (reachable_step hr hst) h1 hs
      exact ⟨k1, k2.trans h2, k3.trans h3⟩

/-! ### An acknowledgment-path failure while the context is not cancelled -/

theorem failing_step {h : Handler} {s s1 : State} {e : Event} {err : BaseErr}
    (hf : Failing err s) (hne : e ≠ .cancel) (hs : step h s e = some s1) : Failing err s1 := by
  obtain ⟨hctx, hpos⟩ := hf
  cases e with
  | cancel => exact absurd rfl hne
  | stanConnect res =>
    obtain ⟨hm, -⟩ := step_stanConnect hs
    simp [hm] at hpos
  | queueSubscribe res =>
    obtain ⟨hm, -⟩ := step_queueSubscribe hs
    simp [hm] at hpos
  | deliver msg => obtain ⟨-, -, -, rfl⟩ := step_deliver hs; exact ⟨hctx, hpos⟩
  | forward => obtain ⟨msg, -, rfl⟩ := step_forward hs; exact ⟨hctx, hpos⟩
  | callbackCtxDone => obtain ⟨msg, -, -, rfl⟩ := step_callbackCtxDone hs; exact ⟨hctx, hpos⟩
  | enqueue =>
    obtain ⟨msg, hcb, hh⟩ := step_enqueue hs
    rcases hh with ⟨-, rfl⟩ | ⟨-, hack, rfl⟩
    · exact ⟨hctx, hpos⟩
    · simp [hack] at hpos
  | pop =>
    obtain ⟨msg, rest, hack, -, rfl⟩ := step_pop hs
    simp [hack] at hpos
  | outerCtxDone =>
    obtain ⟨-, hcan, -⟩ := step_outerCtxDone hs
    simp [hcan] at hctx
  | confirm cr ackRes =>
    obtain ⟨msg, hack, rfl⟩ := step_confirm hs
    simp [hack] at hpos
  | innerCtxDone =>
    obtain ⟨msg, -, hcan, -⟩ := step_innerCtxDone hs
    simp [hcan] at hctx
  | mainCtxDone =>
    obtain ⟨-, hcan, -⟩ := step_mainCtxDone hs
    simp [hcan] at hctx
  | mainRecvErr =>
    obtain ⟨err1, hm, hack, rfl⟩ := step_mainRecvErr hs
    refine ⟨hctx, ?_⟩
    simp [hm, hack] at hpos
    subst hpos
    exact Or.inr (Or.inl ⟨rfl, rfl⟩)
  | finish subRes connRes =>
    obtain ⟨hack, hh⟩ := step_finish hs
    rcases hh with ⟨hm, rfl⟩ | ⟨err1, hm, rfl⟩
    · simp [hm] at hpos
    · refine ⟨hctx, ?_⟩
      simp [hm, hack] at hpos
      subst hpos
      exact Or.inr (Or.inr ⟨rfl, hack⟩)

theorem failing_run {h : Handler} {evs : List Event} {s s1 : State} {err : BaseErr}
    (hf : Failing err s) (hne : .cancel ∉ evs) (hs : run h s evs = some s1) : Failing err s1 := by
  induction evs generalizing s with
  | nil => simp [run] at hs; subst hs; exact hf
  | cons e es ih =>
    simp only [run] at hs
    cases hst : step h s e with
    | none => simp [hst] at hs
    | some s2 =>
      simp only [hst] at hs
      simp only [List.mem_cons, not_or] at hne
      exact ih (failing_step hf (fun hh => hne.1 hh.symm) hst) hne.2 hs

theorem failing_returnValue {s : State} {err : BaseErr} {r : Result} (hf : Failing err s)
    (hret : returnValue s = some r) : r = some (.single err) := by
  obtain ⟨-, hpos⟩ := hf
  rcases hpos with ⟨hm, -⟩ | ⟨hm, -⟩ | ⟨hm, -⟩ <;> simp [returnValue, hm] at hret
  exact hret.symm

/-- With the goroutine blocked sending `err` and the main task at its `select`, the main task
receives `err`, waits, closes both resources and returns `err`. -/
theorem failing_finishes (h : Handler) {s : State} {err : BaseErr} (hm : s.main = .selecting)
    (hack : s.ack = .sending err) (subRes connRes : Option BaseErr) :
    (run h s [.mainRecvErr, .finish subRes connRes]).bind returnValue
      = some (some (.single err)) := by
  simp [run, step, hm, hack, returnValue]

/-- While the context is not cancelled, an acknowledgment goroutine holding an entry means the
main task is at its final `select`. -/
theorem selecting_of_inner {h : Handler} {s : State} {msg : StanMsg} (hr : Reachable h s)
    (hack : s.ack = .inner msg) (hctx : s.cancelled = false) : s.main = .selecting := by
  have hc := control_of_reachable hr
  unfold Control at hc
  cases hm : s.main with
  | returned site r => cases site <;> simp_all
  | _ => simp_all

/-! ### The deadlock after cancellation -/

/-- With the main task in `wg.Wait()` of the `ctx.Done()` branch and the goroutine blocked in a
send on `ackErrors`, neither moves again. -/
theorem stuck_step {h : Handler} {s s1 : State} {e : Event} {err : BaseErr}
    (hm : s.main = .waitCancel) (hack : s.ack = .sending err) (hs : step h s e = some s1) :
    s1.main = .waitCancel ∧ s1.ack = .sending err := by
  cases e with
  | cancel => obtain rfl := step_cancel hs; exact ⟨hm, hack⟩
  | stanConnect res => obtain ⟨hm1, -⟩ := step_stanConnect hs; simp [hm] at hm1
  | queueSubscribe res => obtain ⟨hm1, -⟩ := step_queueSubscribe hs; simp [hm] at hm1
  | deliver msg => obtain ⟨-, -, -, rfl⟩ := step_deliver hs; exact ⟨hm, hack⟩
  | forward => obtain ⟨msg, -, rfl⟩ := step_forward hs; exact ⟨hm, hack⟩
  | callbackCtxDone => obtain ⟨msg, -, -, rfl⟩ := step_callbackCtxDone hs; exact ⟨hm, hack⟩
  | enqueue =>
    obtain ⟨msg, hcb, hh⟩ := step_enqueue hs
    rcases hh with ⟨-, rfl⟩ | ⟨-, hack1, rfl⟩
    · exact ⟨hm, hack⟩
    · simp [hack] at hack1
  | pop => obtain ⟨msg, rest, hack1, -, -⟩ := step_pop hs; simp [hack] at hack1
  | outerCtxDone => obtain ⟨hack1, -, -⟩ := step_outerCtxDone hs; simp [hack] at hack1
  | confirm cr ackRes => obtain ⟨msg, hack1, -⟩ := step_confirm hs; simp [hack] at hack1
  | innerCtxDone => obtain ⟨msg, hack1, -, -⟩ := step_innerCtxDone hs; simp [hack] at hack1
  | mainCtxDone => obtain ⟨hm1, -, -⟩ := step_mainCtxDone hs; simp [hm] at hm1
  | mainRecvErr => obtain ⟨err1, hm1, -, -⟩ := step_mainRecvErr hs; simp [hm] at hm1
  | finish subRes connRes => obtain ⟨hack1, -⟩ := step_finish hs; simp [hack] at hack1

theorem stuck_run {h : Handler} {evs : List Event} {s s1 : State} (err : BaseErr)
    (hm : s.main = .waitCancel) (hack : s.ack = .sending err) (hs : run h s evs = some s1) :
    s1.main = .waitCancel ∧ s1.ack = .sending err := by
  induction evs generalizing s with
  | nil => simp [run] at hs; subst hs; exact ⟨hm, hack⟩
  | cons e es ih =>
    simp only [run] at hs
    cases hst : step h s e with
    | none => simp [hst] at hs
    | some s2 =>
      simp only [hst] at hs
      obtain ⟨h1, h2⟩ := stuck_step hm hack hst
      exact ih h1 h2 hs

end HandleConsume

end Proximo

namespace Proximo

namespace HandleConsume

theorem reachable_stateAfter (h : Handler) (evs : List Event) : Reachable h (stateAfter h evs) := by
  unfold stateAfter
  cases hrun : run h init evs with
  | none => exact reachable_init h
  | some s => exact ⟨evs, hrun⟩

theorem cause_step {h : Handler} {s s1 : State} {e : Event} (hc : Cause s)
    (hs : step h s e = some s1) : Cause s1 := by
  obtain ⟨c1, c2, c3⟩ := hc
  cases e with
  | cancel => obtain rfl := step_cancel hs; exact ⟨c1, c2, c3⟩
  | stanConnect res =>
    obtain ⟨hm, hh⟩ := step_stanConnect hs
    rcases hh with ⟨err, -, rfl⟩ | ⟨-, -, rfl⟩ | ⟨-, -, rfl⟩
    · exact ⟨c1, by simp, by simp⟩
    · exact ⟨c1, by simp, by simp⟩
    · exact ⟨by simp, by simp, by simp⟩
  | queueSubscribe res =>
    obtain ⟨hm, hh⟩ := step_queueSubscribe hs
    rcases hh with ⟨err, -, rfl⟩ | ⟨-, -, rfl⟩
    · exact ⟨c1, by simp, by simp⟩
    · exact ⟨c1, by simp, by simp⟩
  | deliver msg => obtain ⟨-, -, -, rfl⟩ := step_deliver hs; exact ⟨c1, c2, c3⟩
  | forward => obtain ⟨msg, -, rfl⟩ := step_forward hs; exact ⟨c1, c2, c3⟩
  | callbackCtxDone => obtain ⟨msg, -, -, rfl⟩ := step_callbackCtxDone hs; exact ⟨c1, c2, c3⟩
  | enqueue =>
    obtain ⟨msg, hcb, hh⟩ := step_enqueue hs
    rcases hh with ⟨-, rfl⟩ | ⟨-, hack, rfl⟩
    · exact ⟨c1, c2, c3⟩
    · exact ⟨by simp, c2, c3⟩
  | pop => obtain ⟨msg, rest, -, -, rfl⟩ := step_pop hs; exact ⟨by simp, c2, c3⟩
  | outerCtxDone => obtain ⟨-, -, rfl⟩ := step_outerCtxDone hs; exact ⟨by simp, c2, c3⟩
  | confirm cr ackRes =>
    obtain ⟨msg, hack, rfl⟩ := step_confirm hs
    rcases handleConfirmation_cases s msg cr ackRes with
      ⟨-, e, he, heq⟩ | ⟨-, err, -, heq⟩ | ⟨-, -, heq⟩
    · rw [heq]
      refine ⟨?_, c2, c3⟩
      intro e1 h1
      simp only [AckPc.sending.injEq] at h1
      subst h1
      rcases he with ⟨rfl, -⟩ | ⟨seq, -, rfl⟩
      · exact Or.inl ⟨_, rfl⟩
      · exact Or.inr (Or.inl ⟨_, _, rfl⟩)
    · rw [heq]
      refine ⟨?_, c2, c3⟩
      intro e1 h1
      simp only [AckPc.sending.injEq] at h1
      subst h1
      exact Or.inr (Or.inr ⟨_, rfl⟩)
    · rw [heq]
      exact ⟨by simp, c2, c3⟩
  | innerCtxDone => obtain ⟨msg, -, -, rfl⟩ := step_innerCtxDone hs; exact ⟨by simp, c2, c3⟩
  | mainCtxDone => obtain ⟨-, -, rfl⟩ := step_mainCtxDone hs; exact ⟨c1, by simp, by simp⟩
  | mainRecvErr =>
    obtain ⟨err, hm, hack, rfl⟩ := step_mainRecvErr hs
    refine ⟨by simp, ?_, by simp⟩
    intro e1 h1
    simp only [MainPc.waitFailure.injEq] at h1
    subst h1
    exact c1 _ hack
  | finish subRes connRes =>
    obtain ⟨hack, hh⟩ := step_finish hs
    rcases hh with ⟨hm, rfl⟩ | ⟨err, hm, rfl⟩
    · exact ⟨c1, by simp, by simp⟩
    · refine ⟨c1, by simp, ?_⟩
      intro r hr
      simp only [MainPc.returned.injEq, true_and] at hr
      exact ⟨err, c2 err hm, hr.symm⟩

theorem cause_of_reachable {h : Handler} {s : State} (hr : Reachable h s) : Cause s :=
  reachable_induction Cause (by simp [Cause, init]) (fun _ _ _ _ hc hs => cause_step hc hs) s hr

end HandleConsume

end Proximo

namespace Proximo

namespace HandleConsume

/-! ### Mismatches and the in-flight window -/

/-- C1 (mismatch detection).  In a reachable state where the acknowledgment goroutine holds the
popped entry `msg` and the context is not cancelled, a Confirmation whose `MsgID` does not parse,
or parses to a value other than `msg.Sequence`, is taken; the goroutine then holds a parse or
sequence error `e`; `msg.Ack()` is never called again, on no schedule; on every schedule without
cancellation every value `HandleConsume` returns is `e`; and it does return `e` once the main task
receives it and closes the resources. -/
theorem mismatch_detection (h : Handler) (s : State) (msg : StanMsg) (cr : Confirmation)
    (ackRes : Option BaseErr) (hr : Reachable h s) (hack : s.ack = .inner msg)
    (hctx : s.cancelled = false) (hbad : ParseUint cr.MsgID ≠ some msg.Sequence) :
    ∃ s1 e, step h s (.confirm cr ackRes) = some s1
      ∧ (e = parseError cr.MsgID ∧ ParseUint cr.MsgID = none
          ∨ ∃ seq, ParseUint cr.MsgID = some seq ∧ e = sequenceError seq msg.Sequence)
      ∧ s1.ack = .sending e
      ∧ (∀ evs s2, run h s1 evs = some s2 → s2.ackCalls = s.ackCalls)
      ∧ (∀ evs s2 r, .cancel ∉ evs → run h s1 evs = some s2 → returnValue s2 = some r
          → r = some (.single e))
      ∧ (∀ subRes connRes,
          (run h s1 [.mainRecvErr, .finish subRes connRes]).bind returnValue
            = some (some (.single e))) := by
  have hm := selecting_of_inner hr hack hctx
  have hstep : step h s (.confirm cr ackRes) = some (handleConfirmation s msg cr ackRes) := by
    simp [step, hack]
  rcases handleConfirmation_cases s msg cr ackRes with
    ⟨-, e, he, heq⟩ | ⟨hp, -⟩ | ⟨hp, -⟩
  · refine ⟨_, e, hstep, he, by rw [heq], ?_, ?_, ?_⟩
    · intro evs s2 hrun
      have hr1 : Reachable h (handleConfirmation s msg cr ackRes) := reachable_step hr hstep
      have hst := stopped_run hr1 (by rw [heq]; rfl) hrun
      rw [hst.2.1, heq]
    · intro evs s2 r hne hrun hret
      have hf : Failing e (handleConfirmation s msg cr ackRes) := by
        rw [heq]
        exact ⟨hctx, Or.inl ⟨hm, rfl⟩⟩
      exact failing_returnValue (failing_run hf hne hrun) hret
    · intro subRes connRes
      exact failing_finishes h (by rw [heq]; exact hm) (by rw [heq]) subRes connRes
  · exact absurd hp hbad
  · exact absurd hp hbad

/-- An instance of mismatch detection: message 5 is held and the client confirms "6". -/
theorem mismatch_detection_witness :
    Reachable handlerOne (stateAfter handlerOne deliverFive)
      ∧ (stateAfter handlerOne deliverFive).ack = .inner msgFive
      ∧ (stateAfter handlerOne deliverFive).cancelled = false
      ∧ ParseUint (Confirmation.mk "6").MsgID ≠ some msgFive.Sequence
      ∧ ∃ s1 e, step handlerOne (stateAfter handlerOne deliverFive) (.confirm ⟨"6"⟩ none) = some s1
        ∧ (e = parseError (Confirmation.mk "6").MsgID ∧ ParseUint (Confirmation.mk "6").MsgID = none
            ∨ ∃ seq, ParseUint (Confirmation.mk "6").MsgID = some seq
                ∧ e = sequenceError seq msgFive.Sequence)
        ∧ s1.ack = .sending e
        ∧ (∀ evs s2, run handlerOne s1 evs = some s2
            → s2.ackCalls = (stateAfter handlerOne deliverFive).ackCalls)
        ∧ (∀ evs s2 r, .cancel ∉ evs → run handlerOne s1 evs = some s2 → returnValue s2 = some r
            → r = some (.single e))
        ∧ (∀ subRes connRes,
            (run handlerOne s1 [.mainRecvErr, .finish subRes connRes]).bind returnValue
              = some (some (.single e))) :=
  ⟨reachable_stateAfter _ _, by decide, by decide, by decide,
    mismatch_detection handlerOne (stateAfter handlerOne deliverFive) msgFive ⟨"6"⟩ none
      (reachable_stateAfter _ _) (by decide) (by decide) (by decide)⟩

/-- What the bridge itself bounds: for a cap of at least 1, whatever the broker hands to `f`,
the messages delivered and not acknowledged are at most two more than the cap. -/
theorem bridge_bound (h : Handler) (s : State) (hr : Reachable h s) :
    unacknowledged s ≤ h.maxInflight.toNat + 2 := by
  have hsl := slack_of_reachable hr
  have hcap := (window_of_reachable hr).capacity
  have hfw : s.cb.forwarded.length ≤ 1 := by
    cases s.cb <;> simp [CallbackPc.forwarded]
  unfold Slack at hsl
  unfold unacknowledged
  omega

/-- C2, the failing run.  With cap 1, message 5 is delivered and held by the goroutine; the
client does not confirm, and the broker hands message 5 to `f` again, twice: `f` forwards each
copy.  Three messages are then delivered to the client and none is acknowledged, more than the
cap; `ackQueue` is full and the callback waits in its send on `ackQueue`. -/
theorem inflight_bound_exceeded :
    run handlerOne init redeliverySchedule = some (stateAfter handlerOne redeliverySchedule)
      ∧ handlerOne.maxInflight = 1
      ∧ (stateAfter handlerOne redeliverySchedule).delivered.map (fun m => m.Id) = ["5", "5", "5"]
      ∧ (stateAfter handlerOne redeliverySchedule).acked = []
      ∧ unacknowledged (stateAfter handlerOne redeliverySchedule) = 3
      ∧ (stateAfter handlerOne redeliverySchedule).ack = .inner msgFive
      ∧ (stateAfter handlerOne redeliverySchedule).ackQueue = [msgFive]
      ∧ (stateAfter handlerOne redeliverySchedule).cb = .enqueuing msgFive
      ∧ step handlerOne (stateAfter handlerOne redeliverySchedule) .enqueue = none := by
  decide

/-! ### Order of acknowledgments -/

theorem ackCalls_initial {h : Handler} {s : State} (hw : Window h s) :
    s.ackCalls.map toMessage <+: s.delivered := by
  have hf := hw.fifo
  split at hf
  · rw [hf]
    simp only [List.map_append, List.append_assoc]
    exact List.prefix_append _ _
  · exact hf

theorem acked_initial_of_ackCalls {h : Handler} {s : State} (hw : Window h s) :
    s.acked <+: s.ackCalls := by
  rcases hw.calls with hc | ⟨-, m, hc⟩
  · rw [hc]
  · rw [hc]
    exact List.prefix_append _ _

theorem acked_initial {h : Handler} {s : State} (hw : Window h s) :
    s.acked.map toMessage <+: s.delivered :=
  ((acked_initial_of_ackCalls hw).map toMessage).trans (ackCalls_initial hw)

theorem ParseUint_toMessage {h : Handler} {s : State} (hw : Window h s) (m : StanMsg)
    (hm : m ∈ s.acked) : ParseUint (toMessage m).Id = some m.Sequence := by
  have h1 : m ∈ s.ackCalls := (acked_initial_of_ackCalls hw).subset hm
  have h2 : m.Sequence < 2 ^ 64 := hw.bound m (by simp [h1])
  exact ParseUint_FormatUint m.Sequence h2

theorem accepted_length {h : Handler} {s : State} (hw : Window h s) :
    s.accepted.length = s.acked.length := by
  have := congrArg List.length hw.parsed
  simpa using this

/-- C3, the counterexample.  Message 5 is delivered with `Id` "5"; the client confirms "05";
the Confirmation is accepted and the message acknowledged, although the two identifier strings
differ. -/
theorem ordering_by_string_counterexample :
    ∃ s, run handlerOne init leadingZeroSchedule = some s
      ∧ s.accepted = ["05"] ∧ s.delivered.map (fun m => m.Id) = ["5"] ∧ s.acked = [msgFive]
      ∧ ¬ (s.accepted <+: s.delivered.map (fun m => m.Id)) :=
  ⟨stateAfter handlerOne leadingZeroSchedule, by decide, by decide, by decide, by decide,
    by decide⟩

/-- C3, as amended.  In every reachable state the numbers denoted by the `MsgID`s of the
Confirmations accepted so far are, in order, the numbers denoted by the `Id`s of the messages
delivered so far (of the first of them, as many as Confirmations were accepted). -/
theorem ordering_by_sequence (h : Handler) (s : State) (hr : Reachable h s) :
    s.accepted.map ParseUint <+: s.delivered.map (fun m => ParseUint m.Id) := by
  have hw := window_of_reachable hr
  have h1 : s.accepted.map ParseUint = (s.acked.map toMessage).map (fun m => ParseUint m.Id) := by
    rw [hw.parsed, List.map_map]
    apply List.map_congr_left
    intro m hm
    exact (ParseUint_toMessage hw m hm).symm
  rw [h1]
  exact (acked_initial hw).map _

/-- An instance of the ordering by sequence: message 5 confirmed as "05". -/
theorem ordering_by_sequence_witness :
    Reachable handlerOne (stateAfter handlerOne leadingZeroSchedule)
      ∧ (stateAfter handlerOne leadingZeroSchedule).accepted = ["05"]
      ∧ (stateAfter handlerOne leadingZeroSchedule).accepted.map ParseUint
          <+: (stateAfter handlerOne leadingZeroSchedule).delivered.map (fun m => ParseUint m.Id) :=
  ⟨reachable_stateAfter _ _, by decide,
    ordering_by_sequence handlerOne (stateAfter handlerOne leadingZeroSchedule)
      (reachable_stateAfter _ _)⟩

/-! ### The happy path -/

/-- What one round of the serial schedule does from a state in which nothing is in flight. -/
theorem echoRound_run (h : Handler) (hN : 1 ≤ h.maxInflight) (m : StanMsg)
    (hm1 : m.Sequence < 2 ^ 64) (s : State) (hm : s.main = .selecting)
    (hack : s.ack = .outer) (hcb : s.cb = .idle) (hq : s.ackQueue = []) :
    run h s (echoRound m)
      = some { s with
          received := s.received ++ [m],
          delivered := s.delivered ++ [toMessage m],
          confirms := s.confirms ++ [FormatUint m.Sequence],
          accepted := s.accepted ++ [FormatUint m.Sequence],
          ackCalls := s.ackCalls ++ [m],
          acked := s.acked ++ [m] } := by
  have hcap : 0 < h.maxInflight.toNat := by omega
  have hp : ParseUint (FormatUint m.Sequence) = some m.Sequence := ParseUint_FormatUint _ hm1
  have e1 : step h s (.deliver m)
      = some { s with cb := .forwarding m, received := s.received ++ [m] } := by
    simp only [step]
    rw [if_pos]
    exact ⟨by simp [subscribed, hm], hcb, hm1⟩
  simp only [echoRound, run, e1]
  simp only [step, hack, hq, List.length_nil, hcap, if_true, List.nil_append,
    handleConfirmation, hp, ne_eq, not_true_eq_false, if_false]
  cases s
  simp_all

/-- What the serial schedule does from a state in which nothing is in flight. -/
theorem echoSchedule_run (h : Handler) (hN : 1 ≤ h.maxInflight) (msgs : List StanMsg)
    (hseq : ∀ m ∈ msgs, m.Sequence < 2 ^ 64) (s : State) (hm : s.main = .selecting)
    (hack : s.ack = .outer) (hcb : s.cb = .idle) (hq : s.ackQueue = []) :
    run h s (msgs.flatMap echoRound)
      = some { s with
          received := s.received ++ msgs,
          delivered := s.delivered ++ msgs.map toMessage,
          confirms := s.confirms ++ msgs.map (fun m => FormatUint m.Sequence),
          accepted := s.accepted ++ msgs.map (fun m => FormatUint m.Sequence),
          ackCalls := s.ackCalls ++ msgs,
          acked := s.acked ++ msgs } := by
  induction msgs generalizing s with
  | nil => simp [run]
  | cons m ms ih =>
    rw [List.flatMap_cons, run_append,
      echoRound_run h hN m (hseq m (by simp)) s hm hack hcb hq]
    simp only [Option.some_bind]
    refine (ih (fun x hx => hseq x (by simp [hx])) _ ?_ ?_ ?_ ?_).trans ?_
    · exact hm
    · exact hack
    · exact hcb
    · exact hq
    · simp only [List.append_assoc, List.singleton_append, List.map_cons]

/-- C4 (consume happy path).  For a cap of at least 1 and every list `msgs` of broker messages
(sequences below 2^64), the session that delivers them in that order to a client echoing each
`Id` runs; each delivered Message carries the payload and the decimal string of the sequence;
every Confirmation is accepted; and `msg.Ack()` is called, successfully, on exactly the
delivered messages, once each, in delivery order.  More generally, in every reachable state in
which the Confirmations received so far are the first `Id`s delivered, in order, and no
`msg.Ack()` has failed, every Confirmation was accepted and the acknowledged messages are the
first delivered ones, in order, one per Confirmation. -/
theorem consume_happy_path (h : Handler) (msgs : List StanMsg) (hN : 1 ≤ h.maxInflight)
    (hseq : ∀ m ∈ msgs, m.Sequence < 2 ^ 64) :
    (∃ s, run h init (echoSchedule msgs) = some s
      ∧ s.delivered = msgs.map (fun m => ⟨m.Data, FormatUint m.Sequence⟩)
      ∧ s.confirms = s.delivered.map (fun m => m.Id)
      ∧ s.accepted = s.confirms
      ∧ s.ackCalls = msgs ∧ s.acked = msgs)
    ∧ ∀ s, Reachable h s → s.confirms <+: s.delivered.map (fun m => m.Id)
        → s.ackCalls = s.acked
        → s.accepted = s.confirms
          ∧ s.acked.map toMessage = s.delivered.take s.confirms.length := by
  constructor
  · have hneg : ¬ h.maxInflight < 0 := by omega
    have hrun : run h init (echoSchedule msgs)
        = some { init with
            main := .selecting, ack := .outer, opened := [.conn, .subscription],
            received := msgs, delivered := msgs.map toMessage,
            confirms := msgs.map (fun m => FormatUint m.Sequence),
            accepted := msgs.map (fun m => FormatUint m.Sequence),
            ackCalls := msgs, acked := msgs } := by
      have h0 : run h init [.stanConnect none, .queueSubscribe none]
          = some { init with
              main := .selecting, ack := .outer, opened := [.conn, .subscription] } := by
        simp [run, step, init, hneg, hN]
      unfold echoSchedule
      rw [run_append, h0]
      simp only [Option.some_bind]
      refine (echoSchedule_run h hN msgs hseq _ rfl rfl rfl rfl).trans ?_
      simp [init]
    refine ⟨_, hrun, ?_, ?_, rfl, rfl, rfl⟩
    · simp [toMessage]
    · simp [toMessage, Function.comp_def]
  · intro s hr hecho hcalls
    have hw := window_of_reachable hr
    have hlen := accepted_length hw
    have hacc : s.accepted = s.confirms := by
      rcases hw.confirmed with hc | ⟨-, c, m, hc, hm, hpre, hwhy⟩
      · exact hc.symm
      · exfalso
        rcases hwhy with hwhy | hwhy
        · rw [hcalls] at hwhy
          have := congrArg List.length hwhy
          simp at this
        · have h1 : (s.acked ++ [m]).map (fun x => (toMessage x).Id)
              <+: s.delivered.map (fun x => x.Id) := by
            have := hpre.map (fun x => x.Id)
            simpa only [List.map_map, Function.comp_def] using this
          rw [hc] at hecho
          have h2 : s.accepted ++ [c] = (s.acked ++ [m]).map (fun x => (toMessage x).Id) := by
            have h3 := List.prefix_of_prefix_length_le hecho h1 (by simp [hlen])
            exact h3.eq_of_length (by simp [hlen])
          rw [List.map_append] at h2
          have h4 := (List.append_inj' h2 (by simp)).2
          simp only [List.map_cons, List.map_nil, List.cons.injEq, and_true] at h4
          apply hwhy
          rw [h4]
          exact ParseUint_FormatUint _ hm
    refine ⟨hacc, ?_⟩
    have h5 := List.prefix_iff_eq_take.mp (acked_initial hw)
    rw [h5]
    simp only [List.length_map]
    rw [← hacc, hlen]

/-- An instance of the happy path: cap 1, messages 5 and 6. -/
theorem consume_happy_path_witness :
    1 ≤ handlerOne.maxInflight ∧ (∀ m ∈ [msgFive, msgSix], m.Sequence < 2 ^ 64)
    ∧ (∃ s, run handlerOne init (echoSchedule [msgFive, msgSix]) = some s
      ∧ s.delivered = [msgFive, msgSix].map (fun m => ⟨m.Data, FormatUint m.Sequence⟩)
      ∧ s.confirms = s.delivered.map (fun m => m.Id)
      ∧ s.accepted = s.confirms
      ∧ s.ackCalls = [msgFive, msgSix] ∧ s.acked = [msgFive, msgSix])
    ∧ ∀ s, Reachable handlerOne s → s.confirms <+: s.delivered.map (fun m => m.Id)
        → s.ackCalls = s.acked
        → s.accepted = s.confirms
          ∧ s.acked.map toMessage = s.delivered.take s.confirms.length :=
  ⟨by decide, by decide,
    consume_happy_path handlerOne [msgFive, msgSix] (by decide) (by decide)⟩

end HandleConsume

end Proximo

namespace Proximo

namespace HandleConsume

/-! ### Termination of HandleConsume -/

/-- The errors contained in what `closeAll` returns are the failures of the two `Close` calls. -/
theorem closeAll_contains (subRes connRes : Option BaseErr) (e : BaseErr) :
    (closeAll subRes connRes).contains e = true ↔ subRes = some e ∨ connRes = some e := by
  cases subRes with
  | none =>
    cases connRes with
    | none => simp [closeAll, Result.contains]
    | some b =>
      simp only [closeAll, List.foldl, multierrorAppend, Result.contains, decide_eq_true_eq,
        List.mem_singleton, Option.some.injEq, false_or, reduceCtorEq]
      exact eq_comm
  | some a =>
    cases connRes with
    | none =>
      simp only [closeAll, List.foldl, multierrorAppend, Result.contains, decide_eq_true_eq,
        List.mem_singleton, Option.some.injEq, or_false, reduceCtorEq]
      exact eq_comm
    | some b =>
      simp only [closeAll, List.foldl, multierrorAppend, Result.contains, decide_eq_true_eq,
        List.nil_append, List.cons_append, List.mem_cons, List.mem_singleton, List.not_mem_nil,
        or_false, Option.some.injEq]
      constructor
      · rintro (rfl | rfl)
        · exact Or.inl rfl
        · exact Or.inr rfl
      · rintro (rfl | rfl)
        · exact Or.inl rfl
        · exact Or.inr rfl

/-- When both `Close` calls succeed `closeAll` returns `nil`, and only then. -/
theorem closeAll_eq_none (subRes connRes : Option BaseErr) :
    closeAll subRes connRes = none ↔ subRes = none ∧ connRes = none := by
  cases subRes <;> cases connRes <;> simp [closeAll, multierrorAppend]

/-- C7, the counterexample.  The context is cancelled with nothing in flight, the goroutine and
the main task take their `ctx.Done()` case, both closes succeed: `HandleConsume` returns `nil`,
which is not `context.Canceled`. -/
theorem clean_cancellation_counterexample :
    (stateAfter handlerOne cancelSchedule).cancelled = true
      ∧ (stateAfter handlerOne cancelSchedule).closed = [(.subscription, none), (.conn, none)]
      ∧ (run handlerOne init cancelSchedule).bind returnValue = some none
      ∧ (run handlerOne init cancelSchedule).bind returnValue
          ≠ some (some (.single .contextCanceled)) := by
  decide

/-- C7, as amended.  When `HandleConsume` has returned from the `ctx.Done()` branch (line 117)
and every `Close` succeeded, the context is cancelled, the goroutine has returned, and the value
returned is `nil`. -/
theorem clean_cancellation_returns_nil (h : Handler) (s : State) (r : Result)
    (hr : Reachable h s) (hm : s.main = .returned .line117 r)
    (hclose : ∀ c ∈ s.closed, c.2 = none) :
    r = none ∧ s.cancelled = true ∧ s.ack = .done := by
  have hc := control_of_reachable hr
  simp only [Control, hm] at hc
  obtain ⟨hack, hcan, a, b, hcl, hret⟩ := hc
  have ha : a = none := hclose (.subscription, a) (by simp [hcl])
  have hb : b = none := hclose (.conn, b) (by simp [hcl])
  subst ha hb
  exact ⟨by rw [hret]; rfl, hcan, hack⟩

/-- An instance of the clean cancellation: nothing in flight, both closes succeed. -/
theorem clean_cancellation_returns_nil_witness :
    Reachable handlerOne (stateAfter handlerOne cancelSchedule)
      ∧ (stateAfter handlerOne cancelSchedule).main = .returned .line117 none
      ∧ (∀ c ∈ (stateAfter handlerOne cancelSchedule).closed, c.2 = none)
      ∧ ((none : Result) = none ∧ (stateAfter handlerOne cancelSchedule).cancelled = true
          ∧ (stateAfter handlerOne cancelSchedule).ack = .done) :=
  ⟨reachable_stateAfter _ _, by decide, by decide,
    clean_cancellation_returns_nil handlerOne (stateAfter handlerOne cancelSchedule) none
      (reachable_stateAfter _ _) (by decide) (by decide)⟩

/-- C8, the failing run.  Message 5 is delivered and popped, the context is cancelled, the
goroutine takes the Confirmation "6" and blocks sending the sequence error on `ackErrors`, the
main task takes its `ctx.Done()` case and waits in `wg.Wait()`: from this reachable state no
schedule makes `HandleConsume` return, and the goroutine stays blocked in its send. -/
theorem cancel_deadlock :
    run handlerOne init deadlockSchedule = some (stateAfter handlerOne deadlockSchedule)
      ∧ (stateAfter handlerOne deadlockSchedule).cancelled = true
      ∧ (stateAfter handlerOne deadlockSchedule).main = .waitCancel
      ∧ (stateAfter handlerOne deadlockSchedule).ack = .sending (sequenceError 6 5)
      ∧ ∀ evs s1, run handlerOne (stateAfter handlerOne deadlockSchedule) evs = some s1 →
          returnValue s1 = none ∧ s1.ack = .sending (sequenceError 6 5) := by
  refine ⟨by decide, by decide, by decide, by decide, ?_⟩
  intro evs s1 hrun
  have hst := stuck_run (sequenceError 6 5) (by decide) (by decide) hrun
  exact ⟨by simp [returnValue, hst.1], hst.2⟩

/-- C9, the counterexample.  Message 5 is confirmed as "6"; the main task receives the
sequence error and closes; closing the subscription fails: both closes are attempted, but the
returned error is the sequence error alone and does not contain the close failure. -/
theorem close_failure_dropped_counterexample :
    (stateAfter handlerOne mismatchSchedule).closed
        = [(.subscription, some (.backend "close failed")), (.conn, none)]
      ∧ (run handlerOne init mismatchSchedule).bind returnValue
          = some (some (.single (sequenceError 6 5)))
      ∧ Result.contains (some (.single (sequenceError 6 5))) (.backend "close failed") = false := by
  decide

/-- C9, as amended.  When `HandleConsume` has returned from its final `select`, the
subscription and then the connection have been closed, each once, whatever the first `Close`
returned.  After the `ctx.Done()` branch (line 117) the returned error contains exactly the close
failures (and is `nil` when there is none); after the `ackErrors` branch (line 121) it is the
goroutine's error alone. -/
theorem close_aggregation (h : Handler) (s : State) (site : ReturnSite) (r : Result)
    (hr : Reachable h s) (hm : s.main = .returned site r)
    (hsite : site = .line117 ∨ site = .line121) :
    ∃ subRes connRes, s.closed = [(.subscription, subRes), (.conn, connRes)]
      ∧ (site = .line117 → r = closeAll subRes connRes
          ∧ ∀ e, r.contains e = true ↔ subRes = some e ∨ connRes = some e)
      ∧ (site = .line121 → ∃ e, AckPathError e ∧ r = some (.single e)) := by
  have hc := control_of_reachable hr
  have hcause := cause_of_reachable hr
  rcases hsite with rfl | rfl
  · simp only [Control, hm] at hc
    obtain ⟨-, -, a, b, hcl, hret⟩ := hc
    refine ⟨a, b, hcl, ?_, by simp⟩
    intro _
    exact ⟨hret, fun e => by rw [hret]; exact closeAll_contains a b e⟩
  · simp only [Control, hm] at hc
    obtain ⟨-, e, a, b, hcl, -⟩ := hc
    refine ⟨a, b, hcl, by simp, ?_⟩
    intro _
    exact hcause.2.2 r hm

/-- An instance of the close aggregation: the return at line 121 after a sequence error. -/
theorem close_aggregation_witness :
    Reachable handlerOne (stateAfter handlerOne mismatchSchedule)
      ∧ (stateAfter handlerOne mismatchSchedule).main
          = .returned .line121 (some (.single (sequenceError 6 5)))
      ∧ (ReturnSite.line121 = .line117 ∨ ReturnSite.line121 = .line121)
      ∧ ∃ subRes connRes,
          (stateAfter handlerOne mismatchSchedule).closed
            = [(.subscription, subRes), (.conn, connRes)]
          ∧ (ReturnSite.line121 = .line117 →
              some (.single (sequenceError 6 5)) = closeAll subRes connRes
              ∧ ∀ e, Result.contains (some (.single (sequenceError 6 5))) e = true
                  ↔ subRes = some e ∨ connRes = some e)
          ∧ (ReturnSite.line121 = .line121 →
              ∃ e, AckPathError e ∧ some (GoError.single (sequenceError 6 5)) = some (.single e)) :=
  ⟨reachable_stateAfter _ _, by decide, by decide,
    close_aggregation handlerOne (stateAfter handlerOne mismatchSchedule) .line121
      (some (.single (sequenceError 6 5))) (reachable_stateAfter _ _) (by decide) (by decide)⟩

theorem refused_step {h : Handler} (hcap : h.maxInflight < 1) {s s1 : State} {e : Event}
    (hrf : Refused h s) (hs : step h s e = some s1) : Refused h s1 := by
  obtain ⟨h1, h2, h3, h4, hmain⟩ := hrf
  cases e with
  | cancel => obtain rfl := step_cancel hs; exact ⟨h1, h2, h3, h4, hmain⟩
  | stanConnect res =>
    obtain ⟨hm, hh⟩ := step_stanConnect hs
    rw [hm] at hmain
    simp only at hmain
    rcases hh with ⟨err, -, rfl⟩ | ⟨-, hneg, rfl⟩ | ⟨-, hpos, rfl⟩
    · exact ⟨h1, h2, h3, h4, hmain, err, rfl⟩
    · exact ⟨h1, h2, h3, h4, by simp [hmain], hneg⟩
    · exact ⟨h1, h2, h3, h4, by simp [hmain], by omega⟩
  | queueSubscribe res =>
    obtain ⟨hm, hh⟩ := step_queueSubscribe hs
    rw [hm] at hmain
    simp only at hmain
    rcases hh with ⟨err, -, rfl⟩ | ⟨-, hpos, -⟩
    · exact ⟨h1, h2, h3, h4, hmain.1, hmain.2, err, rfl⟩
    · omega
  | deliver msg =>
    obtain ⟨hsub, -⟩ := step_deliver hs
    revert hmain hsub
    unfold subscribed
    cases s.main with
    | returned site r => cases site <;> simp
    | _ => simp
  | forward => obtain ⟨msg, hcb, -⟩ := step_forward hs; simp [h3] at hcb
  | callbackCtxDone => obtain ⟨msg, hcb, -⟩ := step_callbackCtxDone hs; simp [h3] at hcb
  | enqueue => obtain ⟨msg, hcb, -⟩ := step_enqueue hs; simp [h3] at hcb
  | pop => obtain ⟨msg, rest, -, -, rfl⟩ := step_pop hs; exact ⟨h1, h2, h3, h4, hmain⟩
  | outerCtxDone => obtain ⟨-, -, rfl⟩ := step_outerCtxDone hs; exact ⟨h1, h2, h3, h4, hmain⟩
  | confirm cr ackRes =>
    obtain ⟨msg, hack, rfl⟩ := step_confirm hs
    rcases handleConfirmation_cases s msg cr ackRes with
      ⟨-, e, -, he⟩ | ⟨-, err, -, he⟩ | ⟨-, -, he⟩ <;>
      (rw [he]; exact ⟨h1, h2, h3, h4, hmain⟩)
  | innerCtxDone => obtain ⟨msg, -, -, rfl⟩ := step_innerCtxDone hs; exact ⟨h1, h2, h3, h4, hmain⟩
  | mainCtxDone => obtain ⟨hm, -⟩ := step_mainCtxDone hs; simp [hm] at hmain
  | mainRecvErr => obtain ⟨err, hm, -⟩ := step_mainRecvErr hs; simp [hm] at hmain
  | finish subRes connRes =>
    obtain ⟨-, hh⟩ := step_finish hs
    rcases hh with ⟨hm, -⟩ | ⟨err, hm, -⟩ <;> simp [hm] at hmain

theorem refused_of_reachable {h : Handler} (hcap : h.maxInflight < 1) {s : State}
    (hr : Reachable h s) : Refused h s :=
  reachable_induction (Refused h) (by simp [Refused, init])
    (fun _ _ _ _ hrf hs => refused_step hcap hrf hs) s hr

/-- C10, the counterexample.  With `maxInflight = 0` the constructor returns a handler and
`HandleConsume` first opens the connection: after `stan.Connect` the connection is open and
nothing has been rejected.  The rejection comes afterwards, from the broker, which refuses the
subscription: `HandleConsume` returns that error at line 102, the connection being open and
not closed.  With `maxInflight = -1` the connection is opened as well, and creating `ackQueue`
then panics. -/
theorem cap_zero_counterexample :
    newNatsStreamingConsumeHandler (.ok "nc") "test-cluster" 0 = .ok handlerZero
      ∧ (stateAfter handlerZero [.stanConnect none]).opened = [.conn]
      ∧ (run handlerZero init [.stanConnect none]).bind returnValue = none
      ∧ (stateAfter handlerZero refusedSchedule).opened = [.conn]
      ∧ (stateAfter handlerZero refusedSchedule).closed = []
      ∧ (run handlerZero init refusedSchedule).bind returnValue
          = some (some (.single (.backend "stan: invalid max inflight")))
      ∧ (stateAfter handlerMinusOne [.stanConnect none]).opened = [.conn]
      ∧ (stateAfter handlerMinusOne [.stanConnect none]).main = .panicked :=
  ⟨rfl, by decide, by decide, by decide, by decide, by decide, by decide, by decide⟩

/-- C10, as amended.  For every cap below 1 the session is rejected, after the connection has
been opened.  The constructor accepts the cap.  In every reachable state of `HandleConsume` the
subscription has not been opened and no message has been handed over or delivered; a value it
has returned is an error: the one of `stan.Connect` (line 42, nothing opened) or, for cap 0, the
one of `QueueSubscribe` (line 102, the connection open and not closed); a panic happens only for
a negative cap, with the connection open.  And the rejection does happen once `stan.Connect`
has succeeded: for cap 0 `HandleConsume` returns the error with which the broker refuses the
subscription, for a negative cap creating `ackQueue` panics. -/
theorem cap_below_one_rejected (h : Handler) (hcap : h.maxInflight < 1) :
    newNatsStreamingConsumeHandler (.ok h.nc) h.clusterID h.maxInflight = .ok h
      ∧ (∀ s, Reachable h s →
          Resource.subscription ∉ s.opened ∧ s.received = [] ∧ s.delivered = []
          ∧ (∀ site r, s.main = .returned site r →
              r ≠ none
              ∧ (site = .line42 ∧ s.opened = []
                ∨ site = .line102 ∧ h.maxInflight = 0 ∧ s.opened = [.conn] ∧ s.closed = []))
          ∧ (s.main = .panicked → h.maxInflight < 0 ∧ s.opened = [.conn]))
      ∧ (h.maxInflight = 0 → ∀ err,
          step h init (.stanConnect none)
              = some { init with main := .subscribing, ack := .outer, opened := [.conn] }
          ∧ step h { init with main := .subscribing, ack := .outer, opened := [.conn] }
              (.queueSubscribe none) = none
          ∧ (run h init [.stanConnect none, .queueSubscribe (some err)]).bind returnValue
              = some (some (.single err)))
      ∧ (h.maxInflight < 0 →
          run h init [.stanConnect none]
            = some { init with main := .panicked, opened := [.conn] }) := by
  refine ⟨rfl, ?_, ?_, ?_⟩
  · intro s hr
    obtain ⟨h1, h2, -, h4, hmain⟩ := refused_of_reachable hcap hr
    refine ⟨?_, h1, h2, ?_, ?_⟩
    · revert hmain
      cases s.main with
      | returned site r => cases site <;> simp +contextual
      | _ => simp +contextual
    · intro site r hm
      rw [hm] at hmain
      cases site with
      | line42 =>
        obtain ⟨ho, err, rfl⟩ := hmain
        exact ⟨by simp, Or.inl ⟨rfl, ho⟩⟩
      | line102 =>
        obtain ⟨ho, hz, err, rfl⟩ := hmain
        exact ⟨by simp, Or.inr ⟨rfl, hz, ho, h4⟩⟩
      | line117 => exact absurd hmain (by simp)
      | line121 => exact absurd hmain (by simp)
    · intro hm
      rw [hm] at hmain
      exact ⟨hmain.2, hmain.1⟩
  · intro hz err
    have hneg : ¬ h.maxInflight < 0 := by omega
    have hone : ¬ 1 ≤ h.maxInflight := by omega
    refine ⟨by simp [step, init, hneg], by simp [step, hone], ?_⟩
    simp [run, step, init, hneg, returnValue]
  · intro hneg
    simp [run, step, init, hneg]

/-- An instance of the rejection of a cap below 1: cap 0. -/
theorem cap_below_one_rejected_witness :
    handlerZero.maxInflight < 1
      ∧ Reachable handlerZero (stateAfter handlerZero refusedSchedule)
      ∧ (stateAfter handlerZero refusedSchedule).main
          = .returned .line102 (some (.single (.backend "stan: invalid max inflight")))
      ∧ (stateAfter handlerZero refusedSchedule).opened = [.conn]
      ∧ (∀ s, Reachable handlerZero s →
          Resource.subscription ∉ s.opened ∧ s.received = [] ∧ s.delivered = []
          ∧ (∀ site r, s.main = .returned site r →
              r ≠ none
              ∧ (site = .line42 ∧ s.opened = []
                ∨ site = .line102 ∧ handlerZero.maxInflight = 0 ∧ s.opened = [.conn]
                    ∧ s.closed = []))
          ∧ (s.main = .panicked → handlerZero.maxInflight < 0 ∧ s.opened = [.conn])) :=
  ⟨by decide, reachable_stateAfter _ _, by decide, by decide,
    (cap_below_one_rejected handlerZero (by decide)).2.1⟩

end HandleConsume

end Proximo

namespace Proximo

namespace HandleProduce

/-! ## Properties of HandleProduce -/

theorem produce_run_append (conf : ProducerConfig) (s : State) (xs ys : List Event) :
    run conf s (xs ++ ys) = (run conf s xs).bind (fun s1 => run conf s1 ys) := by
  induction xs generalizing s with
  | nil => simp [run]
  | cons e es ih =>
    simp only [List.cons_append, run]
    cases step conf s e with
    | none => simp
    | some s1 => simpa using ih s1

theorem produce_reachable_init (conf : ProducerConfig) : Reachable conf init := ⟨[], rfl⟩

theorem produce_reachable_step {conf : ProducerConfig} {s s1 : State} {e : Event}
    (hr : Reachable conf s) (hs : step conf s e = some s1) : Reachable conf s1 := by
  obtain ⟨evs, hevs⟩ := hr
  exact ⟨evs ++ [e], by simp [produce_run_append, hevs, run, hs]⟩

theorem produce_reachable_stateAfter (conf : ProducerConfig) (evs : List Event) :
    Reachable conf (stateAfter conf evs) := by
  unfold stateAfter
  cases hrun : run conf init evs with
  | none => exact produce_reachable_init conf
  | some s => exact ⟨evs, hrun⟩

/-- What each event of `HandleProduce` does. -/
theorem step_cases {conf : ProducerConfig} {s s1 : State} {e : Event}
    (hs : step conf s e = some s1) :
    (e = .cancel ∧ s1 = { s with cancelled := true })
    ∨ (∃ err, e = .stanConnect (some err) ∧ s.pc = .connecting
        ∧ s1 = { s with pc := .returned .line149 (some (.single err)) })
    ∨ (e = .stanConnect none ∧ s.pc = .connecting ∧ s1 = { s with pc := .receiving })
    ∨ (∃ closeRes, e = .receiveCtxDone closeRes ∧ s.pc = .receiving ∧ s.cancelled = true
        ∧ s1 = { s with pc := .returned .line155 (closeResult closeRes),
                        closed := s.closed ++ [closeRes] })
    ∨ (∃ msg err closeRes, e = .receive msg (some err) closeRes ∧ s.pc = .receiving
        ∧ s1 = { s with consumed := s.consumed ++ [msg],
                        publishCalls := s.publishCalls ++ [publishOf conf msg],
                        pc := .returned .line160 (some (.single err)),
                        closed := s.closed ++ [closeRes] })
    ∨ (∃ msg closeRes, e = .receive msg none closeRes ∧ s.pc = .receiving
        ∧ s1 = { s with consumed := s.consumed ++ [msg],
                        publishCalls := s.publishCalls ++ [publishOf conf msg],
                        published := s.published ++ [publishOf conf msg],
                        pc := .confirming msg })
    ∨ (∃ msg, e = .confirm ∧ s.pc = .confirming msg
        ∧ s1 = { s with pc := .receiving,
                        confirmations := s.confirmations ++ [confirmationOf msg] })
    ∨ (∃ msg closeRes, e = .confirmCtxDone closeRes ∧ s.pc = .confirming msg
        ∧ s.cancelled = true
        ∧ s1 = { s with pc := .returned .line165 (closeResult closeRes),
                        closed := s.closed ++ [closeRes] }) := by
  cases e with
  | cancel =>
    simp [step] at hs
    exact Or.inl ⟨rfl, hs.symm⟩
  | stanConnect res =>
    cases hpc : s.pc <;> simp [step, hpc] at hs
    cases res with
    | none =>
      simp at hs
      exact Or.inr (Or.inr (Or.inl ⟨rfl, rfl, hs.symm⟩))
    | some err =>
      simp at hs
      exact Or.inr (Or.inl ⟨err, rfl, rfl, hs.symm⟩)
  | receiveCtxDone closeRes =>
    cases hpc : s.pc <;> simp [step, hpc] at hs
    exact Or.inr (Or.inr (Or.inr (Or.inl ⟨closeRes, rfl, rfl, hs.1, hs.2.symm⟩)))
  | receive msg pubRes closeRes =>
    cases hpc : s.pc <;> simp [step, hpc] at hs
    cases pubRes with
    | none =>
      simp at hs
      exact Or.inr (Or.inr (Or.inr (Or.inr (Or.inr (Or.inl ⟨msg, closeRes, rfl, rfl, hs.symm⟩)))))
    | some err =>
      simp at hs
      exact Or.inr (Or.inr (Or.inr (Or.inr (Or.inl ⟨msg, err, closeRes, rfl, rfl, hs.symm⟩))))
  | confirm =>
    cases hpc : s.pc <;> simp [step, hpc] at hs
    rename_i msg
    exact Or.inr (Or.inr (Or.inr (Or.inr (Or.inr (Or.inr (Or.inl ⟨msg, rfl, rfl, hs.symm⟩))))))
  | confirmCtxDone closeRes =>
    cases hpc : s.pc <;> simp [step, hpc] at hs
    rename_i msg
    exact Or.inr (Or.inr (Or.inr (Or.inr (Or.inr (Or.inr (Or.inr
      ⟨msg, closeRes, rfl, rfl, hs.1, hs.2.symm⟩))))))

theorem ledger_init (conf : ProducerConfig) : Ledger conf init := by
  constructor <;> simp [init, Pc.awaiting]

theorem ledger_step {conf : ProducerConfig} {s s1 : State} {e : Event} (hl : Ledger conf s)
    (hs : step conf s e = some s1) : Ledger conf s1 := by
  obtain ⟨calls, succeeded, confirmed, pending, looping⟩ := hl
  rcases step_cases hs with ⟨-, rfl⟩ | ⟨err, -, hpc, rfl⟩ | ⟨-, hpc, rfl⟩
    | ⟨closeRes, -, hpc, -, rfl⟩ | ⟨msg, err, closeRes, -, hpc, rfl⟩
    | ⟨msg, closeRes, -, hpc, rfl⟩ | ⟨msg, -, hpc, rfl⟩ | ⟨msg, closeRes, -, hpc, -, rfl⟩
  · exact ⟨calls, succeeded, confirmed, pending, looping⟩
  · obtain ⟨h1, -⟩ := looping (by rw [hpc]; rfl)
    rw [hpc] at confirmed pending
    exact ⟨calls, Or.inl h1, confirmed, pending, by simp [Pc.running]⟩
  · obtain ⟨h1, h2⟩ := looping (by rw [hpc]; rfl)
    rw [hpc] at confirmed pending h2
    exact ⟨calls, Or.inl h1, confirmed, pending, fun _ => ⟨h1, h2⟩⟩
  · obtain ⟨h1, -⟩ := looping (by rw [hpc]; rfl)
    rw [hpc] at confirmed pending
    exact ⟨calls, Or.inl h1, confirmed, pending, by simp [Pc.running]⟩
  · obtain ⟨h1, h2⟩ := looping (by rw [hpc]; rfl)
    rw [hpc] at pending h2
    simp only [Pc.awaiting, List.map_nil, List.append_nil, List.length_nil, Nat.add_zero]
      at pending h2
    refine ⟨?_, Or.inr ⟨⟨_, rfl⟩, publishOf conf msg, ?_⟩, ?_, ?_, by simp [Pc.running]⟩
    · show s.publishCalls ++ [publishOf conf msg] = (s.consumed ++ [msg]).map (publishOf conf)
      rw [calls, List.map_append]
      rfl
    · show s.publishCalls ++ [publishOf conf msg] = s.published ++ [publishOf conf msg]
      rw [h1]
    · show s.confirmations ++ [] <+: (s.consumed ++ [msg]).map confirmationOf
      rw [List.append_nil, h2, List.map_append]
      exact List.prefix_append _ _
    · simpa [Pc.awaiting] using pending
  · obtain ⟨h1, h2⟩ := looping (by rw [hpc]; rfl)
    rw [hpc] at pending h2
    simp only [Pc.awaiting, List.map_nil, List.append_nil, List.length_nil, Nat.add_zero]
      at pending h2
    have hconf : s.confirmations ++ [confirmationOf msg]
        = (s.consumed ++ [msg]).map confirmationOf := by
      rw [h2, List.map_append]
      rfl
    refine ⟨?_, Or.inl ?_, ?_, ?_, fun _ => ⟨?_, ?_⟩⟩
    · show s.publishCalls ++ [publishOf conf msg] = (s.consumed ++ [msg]).map (publishOf conf)
      rw [calls, List.map_append]
      rfl
    · show s.published ++ [publishOf conf msg] = s.publishCalls ++ [publishOf conf msg]
      rw [h1]
    · show s.confirmations ++ [confirmationOf msg] <+: (s.consumed ++ [msg]).map confirmationOf
      rw [hconf]
    · show s.confirmations.length + 1 ≤ (s.published ++ [publishOf conf msg]).length
      simp only [List.length_append, List.length_singleton]
      omega
    · show s.published ++ [publishOf conf msg] = s.publishCalls ++ [publishOf conf msg]
      rw [h1]
    · exact hconf
  · obtain ⟨h1, h2⟩ := looping (by rw [hpc]; rfl)
    rw [hpc] at pending h2 confirmed
    simp only [Pc.awaiting, List.map_cons, List.map_nil, List.length_singleton]
      at pending h2 confirmed
    refine ⟨calls, Or.inl h1, ?_, ?_, fun _ => ⟨h1, ?_⟩⟩
    · show (s.confirmations ++ [confirmationOf msg]) ++ [] <+: s.consumed.map confirmationOf
      rw [List.append_nil]
      exact confirmed
    · show (s.confirmations ++ [confirmationOf msg]).length + 0 ≤ s.published.length
      simp only [List.length_append, List.length_singleton]
      omega
    · show (s.confirmations ++ [confirmationOf msg]) ++ [] = s.consumed.map confirmationOf
      rw [List.append_nil]
      exact h2
  · obtain ⟨h1, -⟩ := looping (by rw [hpc]; rfl)
    rw [hpc] at pending confirmed
    simp only [Pc.awaiting, List.map_cons, List.map_nil, List.length_singleton]
      at pending confirmed
    refine ⟨calls, Or.inl h1, ?_, ?_, by simp [Pc.running]⟩
    · show s.confirmations ++ [] <+: s.consumed.map confirmationOf
      rw [List.append_nil]
      exact (List.prefix_append _ _).trans confirmed
    · show s.confirmations.length + 0 ≤ s.published.length
      omega

theorem ledger_of_reachable {conf : ProducerConfig} {s : State} (hr : Reachable conf s) :
    Ledger conf s := by
  obtain ⟨evs, hevs⟩ := hr
  induction evs using List.reverseRecOn generalizing s with
  | nil => simp [run] at hevs; subst hevs; exact ledger_init conf
  | append_singleton es e ih =>
    rw [produce_run_append] at hevs
    cases hmid : run conf init es with
    | none => simp [hmid] at hevs
    | some mid =>
      simp only [hmid, Option.some_bind, run] at hevs
      cases hst : step conf mid e with
      | none => simp [hst] at hevs
      | some s2 =>
        simp only [hst, Option.some.injEq] at hevs
        subst hevs
        exact ledger_step (ih hmid) hst

/-- After `HandleProduce` has returned nothing more is published or confirmed, and the returned
value stays. -/
theorem returned_run {conf : ProducerConfig} {evs : List Event} {s s1 : State}
    (site : ReturnSite) (r : Result) (hpc : s.pc = .returned site r)
    (hs : run conf s evs = some s1) :
    s1.pc = .returned site r ∧ s1.confirmations = s.confirmations
      ∧ s1.publishCalls = s.publishCalls := by
  induction evs generalizing s with
  | nil => simp [run] at hs; subst hs; exact ⟨hpc, rfl, rfl⟩
  | cons e es ih =>
    simp only [run] at hs
    cases hst : step conf s e with
    | none => simp [hst] at hs
    | some s2 =>
      simp only [hst] at hs
      rcases step_cases hst with ⟨-, rfl⟩ | ⟨err, -, hpc1, -⟩ | ⟨-, hpc1, -⟩
        | ⟨closeRes, -, hpc1, -⟩ | ⟨msg, err, closeRes, -, hpc1, -⟩
        | ⟨msg, closeRes, -, hpc1, -⟩ | ⟨msg, -, hpc1, -⟩ | ⟨msg, closeRes, -, hpc1, -⟩
      · exact ih (s := { s with cancelled := true }) hpc hs
      all_goals (rw [hpc] at hpc1; simp at hpc1)

/-- What one round does from the `select` of the loop. -/
theorem publishRound_run (conf : ProducerConfig) (msg : Option Message) (s : State)
    (hpc : s.pc = .receiving) :
    run conf s (publishRound msg)
      = some { s with
          consumed := s.consumed ++ [msg],
          publishCalls := s.publishCalls ++ [publishOf conf msg],
          published := s.published ++ [publishOf conf msg],
          confirmations := s.confirmations ++ [confirmationOf msg] } := by
  cases s
  simp_all [publishRound, run, step, publishOf, confirmationOf]

theorem publishSchedule_run (conf : ProducerConfig) (msgs : List (Option Message)) (s : State)
    (hpc : s.pc = .receiving) :
    run conf s (msgs.flatMap publishRound)
      = some { s with
          consumed := s.consumed ++ msgs,
          publishCalls := s.publishCalls ++ msgs.map (publishOf conf),
          published := s.published ++ msgs.map (publishOf conf),
          confirmations := s.confirmations ++ msgs.map confirmationOf } := by
  induction msgs generalizing s with
  | nil => simp [run]
  | cons m ms ih =>
    rw [List.flatMap_cons, produce_run_append, publishRound_run conf m s hpc]
    simp only [Option.some_bind]
    refine (ih _ ?_).trans ?_
    · exact hpc
    · simp only [List.append_assoc, List.singleton_append, List.map_cons]

/-- C5 (produce round-trip).  For every topic and every list `msgs` of inbound Messages, the
session in which they are received, every publish succeeding and every Confirmation being
taken, runs: the publishes are `(topic, payload)` of each message, one per message and in order,
and the Confirmations carry the identifiers of the messages, one per message and in the same
order.  Moreover in every reachable state there is one `Publish` call per received message, in
order; the Confirmations sent are, in order, those of the first received messages; there are at
most as many of them as successful publishes; and whenever the loop waits for the next message
every received message has been published and confirmed. -/
theorem produce_round_trip (conf : ProducerConfig) (msgs : List (Option Message)) :
    (∃ s, run conf init (publishSchedule msgs) = some s
      ∧ s.pc = .receiving ∧ s.consumed = msgs
      ∧ s.publishCalls = msgs.map (fun m => (conf.topic, GetData m))
      ∧ s.published = s.publishCalls
      ∧ s.confirmations = msgs.map (fun m => ⟨GetId m⟩))
    ∧ ∀ s, Reachable conf s →
        s.publishCalls = s.consumed.map (fun m => (conf.topic, GetData m))
        ∧ s.confirmations <+: s.consumed.map (fun m => ⟨GetId m⟩)
        ∧ s.confirmations.length ≤ s.published.length
        ∧ (s.pc = .receiving → s.published = s.publishCalls
            ∧ s.confirmations = s.consumed.map (fun m => ⟨GetId m⟩)) := by
  constructor
  · have h0 : run conf init [.stanConnect none] = some { init with pc := .receiving } := by
      simp [run, step, init]
    have hrun : run conf init (publishSchedule msgs)
        = some { init with
            pc := .receiving, consumed := msgs, publishCalls := msgs.map (publishOf conf),
            published := msgs.map (publishOf conf),
            confirmations := msgs.map confirmationOf } := by
      unfold publishSchedule
      rw [produce_run_append, h0]
      simp only [Option.some_bind]
      refine (publishSchedule_run conf msgs _ rfl).trans ?_
      simp [init]
    exact ⟨_, hrun, rfl, rfl, rfl, rfl, rfl⟩
  · intro s hr
    have hl := ledger_of_reachable hr
    refine ⟨hl.calls, ?_, ?_, ?_⟩
    · exact (List.prefix_append _ _).trans hl.confirmed
    · have := hl.pending
      omega
    · intro hpc
      obtain ⟨h1, h2⟩ := hl.looping (by rw [hpc]; rfl)
      rw [hpc] at h2
      exact ⟨h1, by simpa [Pc.awaiting] using h2⟩

/-- An instance of the produce round-trip: one message with identifier "abc" on topic "test"
yields one publish of its payload and one Confirmation "abc". -/
theorem produce_round_trip_witness :
    ∃ s, run confTest init (publishSchedule [some msgAbc]) = some s
      ∧ s.pc = .receiving ∧ s.consumed = [some msgAbc]
      ∧ s.publishCalls = [("test", [98])]
      ∧ s.published = s.publishCalls
      ∧ s.confirmations = [⟨"abc"⟩] :=
  (produce_round_trip confTest [some msgAbc]).1

end HandleProduce

end Proximo

namespace Proximo

/-! ## Backend failures -/

/-- C6 (backend failure propagation).  Consume: in a reachable state where the goroutine holds
`msg`, the context is not cancelled and the Confirmation matches, a failing `msg.Ack()` makes the
goroutine send the acknowledgment error; that error is not `context.Canceled`; on every schedule
without cancellation every value `HandleConsume` returns is that error, and it does return it
once the main task receives it and closes.  Produce: at the `select` of the loop, a `Publish`
that fails with an error other than `context.Canceled` makes `HandleProduce` return that very
error, after `conn.Close()`, and no Confirmation is sent for the message, then or later. -/
theorem backend_failure_propagation
    (h : HandleConsume.Handler) (s : HandleConsume.State) (msg : HandleConsume.StanMsg)
    (cr : HandleConsume.Confirmation) (ackErr : BaseErr)
    (conf : HandleProduce.ProducerConfig) (p : HandleProduce.State)
    (pmsg : Option HandleProduce.Message) (pubErr : BaseErr) (closeRes : Option BaseErr)
    (hr : HandleConsume.Reachable h s) (hack : s.ack = .inner msg)
    (hctx : s.cancelled = false) (hmatch : ParseUint cr.MsgID = some msg.Sequence)
    (hpc : p.pc = .receiving)
    (hpub : pubErr ≠ .contextCanceled) :
    (∃ s1, HandleConsume.step h s (.confirm cr (some ackErr)) = some s1
      ∧ s1.ack = .sending (HandleConsume.ackError ackErr)
      ∧ s1.ackCalls = s.ackCalls ++ [msg] ∧ s1.acked = s.acked
      ∧ HandleConsume.ackError ackErr ≠ .contextCanceled
      ∧ (∀ evs s2 r, .cancel ∉ evs → HandleConsume.run h s1 evs = some s2
          → HandleConsume.returnValue s2 = some r
          → r = some (.single (HandleConsume.ackError ackErr)))
      ∧ (∀ subRes connRes,
          (HandleConsume.run h s1 [.mainRecvErr, .finish subRes connRes]).bind
              HandleConsume.returnValue
            = some (some (.single (HandleConsume.ackError ackErr)))))
    ∧ (∃ p1, HandleProduce.step conf p (.receive pmsg (some pubErr) closeRes) = some p1
      ∧ HandleProduce.returnValue p1 = some (some (.single pubErr))
      ∧ (some (.single pubErr) : Result) ≠ none
      ∧ (some (.single pubErr) : Result) ≠ some (.single .contextCanceled)
      ∧ p1.closed = p.closed ++ [closeRes]
      ∧ ∀ evs p2, HandleProduce.run conf p1 evs = some p2 →
          p2.confirmations = p.confirmations
            ∧ HandleProduce.returnValue p2 = some (some (.single pubErr))) := by
  constructor
  · have hm := HandleConsume.selecting_of_inner hr hack hctx
    have hstep : HandleConsume.step h s (.confirm cr (some ackErr))
        = some (HandleConsume.handleConfirmation s msg cr (some ackErr)) := by
      simp [HandleConsume.step, hack]
    have heq : HandleConsume.handleConfirmation s msg cr (some ackErr)
        = { s with confirms := s.confirms ++ [cr.MsgID], ackCalls := s.ackCalls ++ [msg],
                   ack := .sending (HandleConsume.ackError ackErr) } := by
      simp [HandleConsume.handleConfirmation, hmatch]
    refine ⟨_, hstep, by rw [heq], by rw [heq], by rw [heq], ?_, ?_, ?_⟩
    · simp [HandleConsume.ackError]
    · intro evs s2 r hne hrun hret
      have hf : HandleConsume.Failing (HandleConsume.ackError ackErr)
          (HandleConsume.handleConfirmation s msg cr (some ackErr)) := by
        rw [heq]
        exact ⟨hctx, Or.inl ⟨hm, rfl⟩⟩
      exact HandleConsume.failing_returnValue (HandleConsume.failing_run hf hne hrun) hret
    · intro subRes connRes
      exact HandleConsume.failing_finishes h (by rw [heq]; exact hm) (by rw [heq]) subRes connRes
  · have hstep : HandleProduce.step conf p (.receive pmsg (some pubErr) closeRes)
        = some { p with consumed := p.consumed ++ [pmsg],
                        publishCalls := p.publishCalls ++ [(conf.topic, HandleProduce.GetData pmsg)],
                        pc := .returned .line160 (some (.single pubErr)),
                        closed := p.closed ++ [closeRes] } := by
      simp [HandleProduce.step, hpc]
    refine ⟨_, hstep, rfl, by simp, ?_, rfl, ?_⟩
    · intro hh
      simp only [Option.some.injEq, GoError.single.injEq] at hh
      exact hpub hh
    · intro evs p2 hrun
      have hret := HandleProduce.returned_run .line160 (some (.single pubErr)) rfl hrun
      exact ⟨hret.2.1, by simp [HandleProduce.returnValue, hret.1]⟩

/-- An instance of backend failure propagation: the broker rejects the acknowledgment of
message 5, and rejects the publish of the message "abc". -/
theorem backend_failure_propagation_witness :
    HandleConsume.Reachable HandleConsume.handlerOne
        (HandleConsume.stateAfter HandleConsume.handlerOne HandleConsume.deliverFive)
    ∧ (HandleConsume.stateAfter HandleConsume.handlerOne HandleConsume.deliverFive).ack
        = .inner HandleConsume.msgFive
    ∧ (HandleConsume.stateAfter HandleConsume.handlerOne HandleConsume.deliverFive).cancelled
        = false
    ∧ ParseUint (HandleConsume.Confirmation.mk "5").MsgID = some HandleConsume.msgFive.Sequence
    ∧ (HandleProduce.stateAfter HandleProduce.confTest [.stanConnect none]).pc = .receiving
    ∧ BaseErr.backend "stan: connection closed" ≠ .contextCanceled
    ∧ (HandleConsume.run HandleConsume.handlerOne HandleConsume.init
          (HandleConsume.deliverFive
            ++ [.confirm ⟨"5"⟩ (some (.backend "stan: connection closed")), .mainRecvErr,
                .finish none none])).bind HandleConsume.returnValue
        = some (some (.single
            (.errorf "failed to ack message with NATS: stan: connection closed.")))
    ∧ ∃ p1, HandleProduce.step HandleProduce.confTest
          (HandleProduce.stateAfter HandleProduce.confTest [.stanConnect none])
          (.receive (some HandleProduce.msgAbc) (some (.backend "stan: connection closed")) none)
        = some p1
      ∧ HandleProduce.returnValue p1 = some (some (.single (.backend "stan: connection closed")))
      ∧ p1.confirmations = [] :=
  ⟨HandleConsume.reachable_stateAfter _ _, by decide, by decide, by decide, by decide,
    by decide, by decide,
    by
      obtain ⟨p1, h1, h2, -, -, -, h3⟩ :=
        (backend_failure_propagation HandleConsume.handlerOne
          (HandleConsume.stateAfter HandleConsume.handlerOne HandleConsume.deliverFive)
          HandleConsume.msgFive ⟨"5"⟩ (.backend "stan: connection closed")
          HandleProduce.confTest
          (HandleProduce.stateAfter HandleProduce.confTest [.stanConnect none])
          (some HandleProduce.msgAbc) (.backend "stan: connection closed") none
          (HandleConsume.reachable_stateAfter _ _) (by decide) (by decide) (by decide)
          (by decide) (by decide)).2
      exact ⟨p1, h1, h2, (h3 [] p1 rfl).1⟩⟩

end Proximo
